import Mathlib

/-!
Shallow embedding of the train-ticket availability monitor
(repository train_tickets_tgbot), translated from the Python sources:

* src/app/handlers.py  — validate_rzd_response, monitor_ticket_availability,
  start_ticket_checking, create_search_task, validate_time_input, cancel
* src/app/utils.py     — make_get_request (tenacity retry), calculate_retry_time
* src/app/task_manager.py — TaskManager (add_task, cancel_all_tasks)
* src/app/bot.py       — TicketBot.shutdown
* src/app/settings.py  — configuration constants

The page is modelled at the granularity BeautifulSoup exposes to this code:
the texts of the first div.error_content / div.error_title elements, and the
document-ordered list of div.sch-table__time.train-from-time elements, each
with its optional enclosing div.sch-table__row ancestor carrying the
data-ticket_selling_allowed attribute.
-/

/-! ## Configuration (src/app/settings.py) -/

/-- settings.max_concurrent_searches (default 3). -/
def max_concurrent_searches : Nat := 3

/-- settings.retry_attempts (default 8), used by the tenacity decorator. -/
def retry_attempts : Nat := 8

/-- settings.retry_time (default 3.0 seconds), base of the polling interval. -/
def retry_time : ℚ := 3

/-! ## Page model and availability parsing (src/app/handlers.py lines 189-251, 333-366) -/

/-- A div.sch-table__row element, keeping only the attribute this code reads:
data-ticket_selling_allowed (absent attribute is read as the empty string
via dict-style get with default). -/
structure SchRow where
  ticketSellingAllowed : Option String
deriving DecidableEq

/-- One div.sch-table__time.train-from-time element, in document order:
its rendered text and the result of
find_parent(div, class_=sch-table__row), which the source explicitly
checks for None. -/
structure TimeDiv where
  text : String
  parentRow : Option SchRow
deriving DecidableEq

/-- The BeautifulSoup view of a fetched page, restricted to what the code
queries: first error_content div text, first error_title div text, and the
document-ordered matching time divs. -/
structure Soup where
  errorContent : Option String
  errorTitle : Option String
  timeDivs : List TimeDiv
deriving DecidableEq

/-- soup.find(div, class_=sch-table__time train-from-time, string=target):
first matching element in document order. -/
def findTimeDiv (s : Soup) (target : String) : Option TimeDiv :=
  s.timeDivs.find? (fun d => d.text == target)

/-- Byte-wise lowering of a string, as str.lower() acts on the ASCII
attribute values this code compares. -/
def lowerStr (s : String) : String :=
  ⟨s.data.map Char.toLower⟩

/-- train_block.get(data-ticket_selling_allowed, empty).lower() == true
(handlers.py lines 364-366). -/
def ticketAvailable (r : SchRow) : Bool :=
  lowerStr (r.ticketSellingAllowed.getD "") == "true"

/-- Result of validate_rzd_response: which branch ran (error message sent
and False returned; not-found message sent and False returned; or True). -/
inductive InitialCheck where
  | routeError (msg : String)
  | timeNotFound
  | ok
deriving DecidableEq

/-- The joined error text: the stripped texts of error_content then
error_title, joined by a pipe separator, exactly the dict-ordered
comprehension in the source. -/
def errorJoin (s : Soup) : String :=
  String.intercalate " | "
    (((s.errorContent.toList) ++ (s.errorTitle.toList)).map String.trim)

/-- validate_rzd_response (handlers.py lines 189-251): if any error element
exists, report the route error with the extracted text; otherwise if no
time div matches params[3], report the train-not-found branch; otherwise
pass. -/
def validate_rzd_response (s : Soup) (target : String) : InitialCheck :=
  if s.errorContent.isSome || s.errorTitle.isSome then
    .routeError (errorJoin s)
  else
    match findTimeDiv s target with
    | none => .timeNotFound
    | some _ => .ok

/-- Outcome of one page inspection inside monitor_ticket_availability. -/
inductive MonitorOutcome where
  | wrongParams
  | available
  | unavailable
deriving DecidableEq

/-- The per-iteration page classification in monitor_ticket_availability
(handlers.py lines 333-366): find the first matching time div; if it or its
parent row is missing the worker reports wrong parameters; otherwise the
row attribute decides availability. -/
def monitorClassify (s : Soup) (target : String) : MonitorOutcome :=
  match findTimeDiv s target with
  | none => .wrongParams
  | some d =>
    match d.parentRow with
    | none => .wrongParams
    | some row => if ticketAvailable row then .available else .unavailable

/-- The availability outcomes named by the specification. -/
inductive AvailabilityOutcome where
  | routePageError (msg : String)
  | trainNotFound
  | available
  | unavailable
deriving DecidableEq

/-- The composite availability classification the code applies to a page
body: the initial check (validate_rzd_response) runs first, and a page that
passes it is classified by the monitoring-loop inspection. The
wrong-parameters branch of monitoring reports the time as not found for the
route, so it maps to trainNotFound. -/
def classify (s : Soup) (target : String) : AvailabilityOutcome :=
  match validate_rzd_response s target with
  | .routeError m => .routePageError m
  | .timeNotFound => .trainNotFound
  | .ok =>
    match monitorClassify s target with
    | .wrongParams => .trainNotFound
    | .available => .available
    | .unavailable => .unavailable

/-- Modelled from the spec: the classification as the specification words it
(spec section 4.3 and claim C4) — error region first, then: a page with no
schedule row whose departure-time label equals the target is trainNotFound,
otherwise the located row flag decides. Locating the row follows the words
of the spec: the first departure-time element that lies inside a schedule
row. Kept separate to compare with the classification the code performs. -/
def classifySpec (s : Soup) (target : String) : AvailabilityOutcome :=
  if s.errorContent.isSome || s.errorTitle.isSome then
    .routePageError (errorJoin s)
  else
    match s.timeDivs.find? (fun d => d.text == target && d.parentRow.isSome) with
    | none => .trainNotFound
    | some d =>
      match d.parentRow with
      | none => .trainNotFound
      | some row => if ticketAvailable row then .available else .unavailable

/-! ## The monitoring loop as a trace function
(src/app/handlers.py monitor_ticket_availability, lines 318-399)

Each iteration of the while-loop performs one make_get_request call whose
outcome is one element of the event list: the call raises a network error
(aiohttp.ClientError or asyncio.TimeoutError after the fetcher's internal
retries), or returns a response with a status and a parsed body, or the
iteration fails with some other exception (the bare except Exception arm).
The function returns the user-facing messages sent, whether the coroutine
returned (terminating the search), and how many fetches it performed.  A
trace that ends with the loop still running yields finished = false. -/

/-- One observed outcome of a monitoring-loop iteration. -/
inductive MEvent where
  | netError
  | response (status : Nat) (body : Soup)
  | exc
deriving DecidableEq

/-- The user-facing messages the worker can send, by send_message call site. -/
inductive Msg where
  | serverDown
  | wrongParams
  | success
  | confirmation
  | routeErrorMsg (m : String)
  | trainNotFoundMsg
  | badFormat
  | pastTime
  | genericError
deriving DecidableEq

/-- Result of running a worker on a finite trace of fetch outcomes. -/
structure RunResult where
  msgs : List Msg
  finished : Bool
  fetches : Nat
deriving DecidableEq

/-- monitor_ticket_availability: the while-True loop.  A network error makes
the except-ClientError arm send the server-down message and return; a
non-200 status only sleeps and continues; a page whose time div or parent
row is missing makes the worker send the wrong-parameters message and
return; an available page sends the success message and FALLS THROUGH to
the sleep, continuing the loop; an unavailable page just continues; any
other exception is logged and the loop continues. -/
def monitor_ticket_availability (target : String) : List MEvent → RunResult
  | [] => ⟨[], false, 0⟩
  | .netError :: _ => ⟨[.serverDown], true, 1⟩
  | .exc :: rest =>
    let r := monitor_ticket_availability target rest
    ⟨r.msgs, r.finished, r.fetches + 1⟩
  | .response status body :: rest =>
    if status ≠ 200 then
      let r := monitor_ticket_availability target rest
      ⟨r.msgs, r.finished, r.fetches + 1⟩
    else
      match monitorClassify body target with
      | .wrongParams => ⟨[.wrongParams], true, 1⟩
      | .available =>
        let r := monitor_ticket_availability target rest
        ⟨.success :: r.msgs, r.finished, r.fetches + 1⟩
      | .unavailable =>
        let r := monitor_ticket_availability target rest
        ⟨r.msgs, r.finished, r.fetches + 1⟩

/-- Result of validate_time_input: which branch ran (format-error message
and False; past-time message and False; or True). -/
inductive TimeValidation where
  | formatError
  | pastError
  | ok
deriving DecidableEq

/-- The initial Fetcher+Parser pass of start_ticket_checking (handlers.py
lines 254-315): the first fetch outcome decides whether the worker reports
and returns, or sends the confirmation and enters monitoring on the rest of
the trace.  A non-200 status raises, landing in the generic except arm. -/
def initial_check (target : String) (e : MEvent) (rest : List MEvent) : RunResult :=
  match e with
  | .netError => ⟨[.serverDown], true, 1⟩
  | .exc => ⟨[.genericError], true, 1⟩
  | .response status body =>
    if status ≠ 200 then ⟨[.genericError], true, 1⟩
    else
      match validate_rzd_response body target with
      | .routeError m => ⟨[.routeErrorMsg m], true, 1⟩
      | .timeNotFound => ⟨[.trainNotFoundMsg], true, 1⟩
      | .ok =>
        let r := monitor_ticket_availability target rest
        ⟨.confirmation :: r.msgs, r.finished, r.fetches + 1⟩

/-- start_ticket_checking: the whole worker body given the result of
validate_time_input (which runs before any fetch) and the trace of fetch
outcomes.  A validation failure sends its message and returns with zero
fetches. -/
def start_ticket_checking (tv : TimeValidation) (target : String)
    (events : List MEvent) : RunResult :=
  match tv with
  | .formatError => ⟨[.badFormat], true, 0⟩
  | .pastError => ⟨[.pastTime], true, 0⟩
  | .ok =>
    match events with
    | [] => ⟨[], false, 0⟩
    | e :: rest => initial_check target e rest

/-! ## The retrying fetcher (src/app/utils.py make_get_request, lines 33-51)

The tenacity decorator: stop_after_attempt(settings.retry_attempts),
retry_if_exception_type((aiohttp.ClientError, asyncio.TimeoutError)),
reraise=True.  An attempt either returns a response (any status — the body
never raises for status), raises a retryable network error, or raises some
other exception (re-raised by the inner except arm and not retried by
tenacity, whose retry predicate rejects it). -/

/-- Kinds of retryable network failure. -/
inductive NetErr where
  | connection
  | timeout
deriving DecidableEq

/-- Outcome of one GET attempt. -/
inductive Attempt where
  | ok (status : Nat)
  | netErr (e : NetErr)
  | otherErr
deriving DecidableEq

/-- Outcome of the whole decorated call. -/
inductive ReqResult where
  | resp (status : Nat)
  | raisedNet (e : NetErr)
  | raisedOther
deriving DecidableEq

/-- The tenacity retry loop: attempt i is drawn from the environment att;
a response or a non-retryable exception ends the call at once, a network
error is retried while attempts remain and re-raised (reraise=True) when
the budget is exhausted.  Returns the outcome and the number of attempts
performed. -/
def retryLoop (att : Nat → Attempt) : Nat → Nat → ReqResult × Nat
  | i, 0 => (.raisedOther, i)
  | i, fuel + 1 =>
    match att i with
    | .ok status => (.resp status, i + 1)
    | .otherErr => (.raisedOther, i + 1)
    | .netErr e => if fuel = 0 then (.raisedNet e, i + 1) else retryLoop att (i + 1) fuel

/-- make_get_request: the decorated call with the configured budget of
settings.retry_attempts = 8 attempts. -/
def make_get_request (att : Nat → Attempt) : ReqResult × Nat :=
  retryLoop att 0 retry_attempts

/-! ## Backoff and jitter (src/app/utils.py lines 33-38 and 54-56)

wait_exponential(multiplier=1, min=1, max=3) from tenacity: the delay after
attempt number n is max(max(0, min), min(multiplier * 2^(n-1), max)); the
tenacity source states the intervals are fixed, with no jitter.
calculate_retry_time draws random.uniform(base - base*0.25, base + base*0.25)
and is used for the sleep between monitoring iterations, not between fetch
attempts; random.uniform(a, b) is modelled as a + u*(b-a) for a draw
u in the unit interval. -/

/-- tenacity wait_exponential with explicit parameters. -/
def wait_exponential (multiplier lo hi : ℚ) (attempt_number : Nat) : ℚ :=
  max (max 0 lo) (min (multiplier * 2 ^ (attempt_number - 1)) hi)

/-- The delay the decorator on make_get_request waits after failed attempt
number n: wait_exponential(multiplier=1, min=1, max=3). -/
def retry_wait (n : Nat) : ℚ :=
  wait_exponential 1 1 3 n

/-- The delay between consecutive fetch attempts inside make_get_request,
as a function of the random draw u available to the process: the code never
consults the random generator for this delay, so u is ignored. -/
def inter_attempt_delay (n : Nat) (_u : ℚ) : ℚ :=
  retry_wait n

/-- calculate_retry_time: variation = base * 0.25; the sleep is
random.uniform(base - variation, base + variation), the polling interval of
the monitoring loop. -/
def calculate_retry_time (base u : ℚ) : ℚ :=
  ((base - base * (25 / 100)) : ℚ)
    + u * ((base + base * (25 / 100)) - (base - base * (25 / 100)))

/-! ## Time and date validation
(src/app/handlers.py validate_time_input, lines 126-186; the identical copy
lives in src/app/utils.py lines 59-119)

datetime.time.fromisoformat is modelled for the colon-separated HH:MM and
HH:MM:SS shapes with two-digit components, the shapes this bot ever
receives and the ones the claims exercise; datetime.strptime with the
repository's DATE_FORMAT (the four-digit-year dash format the bot's own
help text displays) is modelled with real calendar day validation, as
strptime performs.  The current Minsk wall clock is passed explicitly: the
code compares datetime.date and datetime.time values, the latter carrying
seconds and microseconds. -/

/-- A datetime.time value: hour, minute, second, microsecond. -/
structure PTime where
  hour : Nat
  minute : Nat
  second : Nat
  microsecond : Nat
deriving DecidableEq

/-- A datetime.date value. -/
structure PDate where
  year : Nat
  month : Nat
  day : Nat
deriving DecidableEq

/-- Python tuple-style comparison of time values. -/
def PTime.before (a b : PTime) : Bool :=
  if a.hour ≠ b.hour then decide (a.hour < b.hour)
  else if a.minute ≠ b.minute then decide (a.minute < b.minute)
  else if a.second ≠ b.second then decide (a.second < b.second)
  else decide (a.microsecond < b.microsecond)

/-- Python tuple-style comparison of date values. -/
def PDate.before (a b : PDate) : Bool :=
  if a.year ≠ b.year then decide (a.year < b.year)
  else if a.month ≠ b.month then decide (a.month < b.month)
  else decide (a.day < b.day)

/-- Splits a character list at every occurrence of the separator. -/
def splitSep (sep : Char) : List Char → List (List Char)
  | [] => [[]]
  | c :: rest =>
    let r := splitSep sep rest
    if c = sep then [] :: r
    else
      match r with
      | h :: tl => (c :: h) :: tl
      | [] => [[c]]

/-- A field of exactly two decimal digits. -/
def twoDigits : List Char → Option Nat
  | [a, b] =>
    if a.isDigit && b.isDigit then
      some ((a.toNat - 48) * 10 + (b.toNat - 48))
    else none
  | _ => none

/-- A field of one or two decimal digits, as strptime %m and %d accept. -/
def oneTwoDigits : List Char → Option Nat
  | [a] => if a.isDigit then some (a.toNat - 48) else none
  | l => twoDigits l

/-- A field of exactly four decimal digits, strptime %Y. -/
def fourDigits : List Char → Option Nat
  | [a, b, c, d] =>
    if a.isDigit && b.isDigit && c.isDigit && d.isDigit then
      some (((a.toNat - 48) * 10 + (b.toNat - 48)) * 100
        + ((c.toNat - 48) * 10 + (d.toNat - 48)))
    else none
  | _ => none

/-- datetime.time.fromisoformat on the colon-separated shapes. -/
def time_fromisoformat (s : String) : Option PTime :=
  match splitSep ':' s.data with
  | [h, m] =>
    match twoDigits h, twoDigits m with
    | some hh, some mm =>
      if hh < 24 && mm < 60 then some ⟨hh, mm, 0, 0⟩ else none
    | _, _ => none
  | [h, m, sec] =>
    match twoDigits h, twoDigits m, twoDigits sec with
    | some hh, some mm, some ss =>
      if hh < 24 && mm < 60 && ss < 60 then some ⟨hh, mm, ss, 0⟩ else none
    | _, _, _ => none
  | _ => none

/-- The Gregorian leap-year rule. -/
def isLeap (y : Nat) : Bool :=
  (y % 4 = 0 && y % 100 ≠ 0) || y % 400 = 0

/-- Days in a month of the Gregorian calendar. -/
def daysInMonth (y m : Nat) : Nat :=
  if m = 2 then (if isLeap y then 29 else 28)
  else if m = 4 || m = 6 || m = 9 || m = 11 then 30
  else 31

/-- datetime.strptime(date_str, DATE_FORMAT).date() for the dash-separated
year-month-day format, validating the calendar as strptime does. -/
def strptime_date (s : String) : Option PDate :=
  match splitSep '-' s.data with
  | [y, m, d] =>
    match fourDigits y, oneTwoDigits m, oneTwoDigits d with
    | some yy, some mm, some dd =>
      if 1 ≤ mm && mm ≤ 12 && 1 ≤ dd && dd ≤ daysInMonth yy mm then
        some ⟨yy, mm, dd⟩
      else none
    | _, _, _ => none
  | _ => none

/-- The current Minsk date and wall-clock time. -/
structure Now where
  date : PDate
  time : PTime
deriving DecidableEq

/-- validate_time_input (handlers.py lines 126-186): parse the time then
the date (a ValueError from either sends the format-error message and
returns False); then reject — with the past-time message — when the raw
time string is not exactly 5 characters long, or the date is before today,
or the date is today and the parsed time is before the current wall-clock
time (which carries seconds and microseconds). -/
def validate_time_input (date_str time_str : String) (now : Now) : TimeValidation :=
  match time_fromisoformat time_str, strptime_date date_str with
  | some input_time, some input_date =>
    if time_str.length ≠ 5
        || PDate.before input_date now.date
        || (input_date == now.date && PTime.before input_time now.time) then
      .pastError
    else .ok
  | _, _ => .formatError

/-! ## Task registry state machine
(src/app/handlers.py create_search_task lines 66-88 and cancel lines
402-450; src/app/task_manager.py; src/app/bot.py TicketBot.shutdown lines
193-195)

One user's view of the mutable state: context.user_data holds the keys
search_task_1 .. search_task_3 (the slots), and the module-level
TaskManager holds active_tasks[chat_id], the append-only list every created
task joins.  asyncio tasks are represented by records carrying an
identifier, a status (running, finished normally, or cancelled — done()
means not running), whether the request would pass time validation, whether
the coroutine body ever started executing, and how many fetches the worker
has performed.  Handlers run atomically: the telegram event loop runs one
handler step at a time and create_search_task reaches no await point
between creating the task and cancelling it on rejection, so a task
cancelled there never executes its body. -/

/-- Status of an asyncio task; done() is any status other than running. -/
inductive TStatus where
  | running
  | finished
  | cancelled
deriving DecidableEq

/-- One asyncio task created by create_search_task. -/
structure TaskRec where
  tid : Nat
  status : TStatus
  valid : Bool
  ran : Bool
  fetches : Nat
deriving DecidableEq

/-- One user's registry state: the slot keys of context.user_data (none is
an absent key) and the task_manager list for this chat. -/
structure UState where
  nextId : Nat
  tasks : List TaskRec
  manager : List Nat
  slots : List (Option Nat)
deriving DecidableEq

/-- The state before any submission: no tasks, empty manager list, all
three slot keys absent. -/
def initState : UState :=
  ⟨0, [], [], [none, none, none]⟩

/-- The record of the task with the given identifier. -/
def findTask (s : UState) (tid : Nat) : Option TaskRec :=
  s.tasks.find? (fun t => t.tid == tid)

/-- Whether the task is live: not task.done(). -/
def taskRunning (s : UState) (tid : Nat) : Bool :=
  match findTask s tid with
  | some t => t.status == .running
  | none => false

/-- The slot test of create_search_task: the key is absent or its task is
done(). -/
def slotFree (s : UState) : Option Nat → Bool
  | none => true
  | some tid => ! taskRunning s tid

/-- Rewrites the record of one task in place. -/
def updateTask (s : UState) (tid : Nat) (f : TaskRec → TaskRec) : UState :=
  { s with tasks := s.tasks.map (fun t => if t.tid == tid then f t else t) }

/-- Sets the status of one task. -/
def setStatus (s : UState) (tid : Nat) (st : TStatus) : UState :=
  updateTask s tid (fun t => { t with status := st })

/-- The slot-assignment loop of create_search_task: put the task id into
the first slot that is absent or done, returning the new slot list, or
none when every slot holds a live task. -/
def assignFirstFree (s : UState) (tid : Nat) : List (Option Nat) → Option (List (Option Nat))
  | [] => none
  | o :: rest =>
    if slotFree s o then some (some tid :: rest)
    else (assignFirstFree s tid rest).map (fun l => o :: l)

/-- create_search_task (handlers.py lines 66-88): the task is created
running and appended to task_manager.active_tasks[chat_id] before the
limit check; then the first free slot receives it and True is returned, or
— with every slot live — the fresh task is cancelled (before its body ever
runs) and False is returned.  The cancelled task stays in the manager
list; nothing removes it. -/
def create_search_task (v : Bool) (s : UState) : UState × Bool :=
  let tid := s.nextId
  let s1 : UState :=
    { nextId := tid + 1
      tasks := s.tasks ++ [⟨tid, .running, v, false, 0⟩]
      manager := s.manager ++ [tid]
      slots := s.slots }
  match assignFirstFree s1 tid s1.slots with
  | some slots1 => ({ s1 with slots := slots1 }, true)
  | none => (setStatus s1 tid .cancelled, false)

/-- The worker body runs validate_time_input and it fails: the coroutine
sends its message and returns without fetching (start_ticket_checking
lines 261-264). -/
def workerValidateFail (s : UState) (tid : Nat) : UState :=
  updateTask s tid (fun t => { t with ran := true, status := .finished })

/-- The worker body starts executing with valid parameters. -/
def workerBegin (s : UState) (tid : Nat) : UState :=
  updateTask s tid (fun t => { t with ran := true })

/-- A running worker with valid parameters performs one fetch. -/
def workerFetch (s : UState) (tid : Nat) : UState :=
  updateTask s tid (fun t => { t with fetches := t.fetches + 1 })

/-- A running worker returns on its own. -/
def workerFinish (s : UState) (tid : Nat) : UState :=
  setStatus s tid .finished

/-- The slot sweep of the cancel handler (handlers.py lines 415-430): each
slot key in order; a live task is cancelled and counted, a done task is
not counted; every visited key is popped. -/
def cancelSlots (s : UState) : List (Option Nat) → UState × Nat
  | [] => (s, 0)
  | none :: rest => cancelSlots s rest
  | some tid :: rest =>
    if taskRunning s tid then
      let p := cancelSlots (setStatus s tid .cancelled) rest
      (p.1, p.2 + 1)
    else cancelSlots s rest

/-- The cancel handler: with no user_data keys it only reports zero;
otherwise it sweeps the slots, counting cancelled live tasks, and every
slot key ends up popped. -/
def cancel (s : UState) : UState × Nat :=
  if s.slots.all Option.isNone then (s, 0)
  else
    let p := cancelSlots s s.slots
    ({ p.1 with slots := s.slots.map (fun _ => none) }, p.2)

/-- TaskManager.cancel_all_tasks (task_manager.py lines 14-22): every
not-done task in the manager lists is cancelled; the lists themselves are
not cleared and user_data slots are untouched. -/
def cancel_all_tasks (s : UState) : UState :=
  { s with
    tasks := s.tasks.map (fun t =>
      if s.manager.contains t.tid && t.status == .running then
        { t with status := .cancelled }
      else t) }

/-- TaskManager.get_active_users restricted to this user: whether any of
the user's manager tasks is live. -/
def get_active_users (s : UState) : Bool :=
  s.manager.any (fun tid => taskRunning s tid)

/-- TicketBot.shutdown (bot.py lines 193-195): the post_stop hook.  Its
body is a single log statement: it cancels nothing and sends no message.
The second component is the list of messages sent so far. -/
def shutdown (s : UState) (sent : List Msg) : UState × List Msg :=
  (s, sent)

/-- The number of slots holding a live task: the user's live search
handles. -/
def slotLiveCount (s : UState) : Nat :=
  (s.slots.filter (fun o => ! slotFree s o)).length

/-- The states one user's registry can reach: any interleaving of
submissions (with requests that would pass or fail time validation),
worker progress, the cancel handler, and TaskManager.cancel_all_tasks. -/
inductive Reachable : UState → Prop where
  | init : Reachable initState
  | create (v : Bool) {s : UState} :
      Reachable s → Reachable (create_search_task v s).1
  | validateFail {s : UState} (tid : Nat) (t : TaskRec) :
      Reachable s → findTask s tid = some t → t.status = .running →
      t.ran = false → t.valid = false → Reachable (workerValidateFail s tid)
  | wbegin {s : UState} (tid : Nat) (t : TaskRec) :
      Reachable s → findTask s tid = some t → t.status = .running →
      t.ran = false → t.valid = true → Reachable (workerBegin s tid)
  | wfetch {s : UState} (tid : Nat) (t : TaskRec) :
      Reachable s → findTask s tid = some t → t.status = .running →
      t.ran = true → t.valid = true → Reachable (workerFetch s tid)
  | wfinish {s : UState} (tid : Nat) (t : TaskRec) :
      Reachable s → findTask s tid = some t → t.status = .running →
      t.ran = true → Reachable (workerFinish s tid)
  | ucancel {s : UState} :
      Reachable s → Reachable (cancel s).1
  | callAll {s : UState} :
      Reachable s → Reachable (cancel_all_tasks s)

/-- The registry invariants every reachable state satisfies. -/
structure WF (s : UState) : Prop where
  slotsLen : s.slots.length = max_concurrent_searches
  slotIdsLt : ∀ tid : Nat, some tid ∈ s.slots → tid < s.nextId
  slotIdsNodup : (s.slots.filterMap id).Nodup
  taskIdsLt : ∀ t ∈ s.tasks, t.tid < s.nextId
  runningSlotted : ∀ t ∈ s.tasks, t.status = .running → some t.tid ∈ s.slots
  taskIdsNodup : (s.tasks.map (fun t => t.tid)).Nodup
  inManager : ∀ t ∈ s.tasks, t.tid ∈ s.manager
  invalidNoFetch : ∀ t ∈ s.tasks, t.valid = false → t.fetches = 0
  notRanNoFetch : ∀ t ∈ s.tasks, t.ran = false → t.fetches = 0

/-! ## Supporting lemmas about task lookup -/

theorem find_tid_map (g : TaskRec → TaskRec) (hg : ∀ t, (g t).tid = t.tid)
    (l : List TaskRec) (x : Nat) :
    (l.map g).find? (fun t => t.tid == x) = (l.find? (fun t => t.tid == x)).map g := by
  induction l with
  | nil => rfl
  | cons a l ih =>
    simp only [List.map_cons, List.find?]
    rw [hg a]
    cases h : (a.tid == x) with
    | true => simp
    | false => simpa using ih

theorem find_tid_append (l : List TaskRec) (nt : TaskRec) (x : Nat) (hx : x ≠ nt.tid) :
    (l ++ [nt]).find? (fun t => t.tid == x) = l.find? (fun t => t.tid == x) := by
  induction l with
  | nil =>
    simp only [List.nil_append, List.find?]
    have : (nt.tid == x) = false := by
      simp [Ne.symm hx]
    simp [List.find?, this]
  | cons a l ih =>
    simp only [List.cons_append, List.find?]
    cases h : (a.tid == x) with
    | true => rfl
    | false => simpa using ih

theorem find_tid_of_nodup (l : List TaskRec) (h : (l.map (fun t => t.tid)).Nodup)
    (t : TaskRec) (ht : t ∈ l) : l.find? (fun u => u.tid == t.tid) = some t := by
  induction l with
  | nil => cases ht
  | cons a l ih =>
    simp only [List.map_cons, List.nodup_cons] at h
    rcases List.mem_cons.mp ht with rfl | hmem
    · simp [List.find?]
    · have hne : (a.tid == t.tid) = false := by
        have : a.tid ≠ t.tid := by
          intro he
          exact h.1 (he ▸ List.mem_map_of_mem (fun u => u.tid) hmem)
        simp [this]
      simp only [List.find?, hne]
      exact ih h.2 hmem

theorem find_tid_none (l : List TaskRec) (x : Nat) (h : ∀ t ∈ l, t.tid ≠ x) :
    l.find? (fun t => t.tid == x) = none := by
  rw [List.find?_eq_none]
  intro t ht
  simpa using h t ht

theorem filter_all_of_length {α : Type} (p : α → Bool) (l : List α)
    (h : (l.filter p).length = l.length) : ∀ a ∈ l, p a = true := by
  induction l with
  | nil => intro a ha; cases ha
  | cons a l ih =>
    cases hp : p a with
    | true =>
      intro b hb
      rcases List.mem_cons.mp hb with rfl | hmem
      · exact hp
      · refine ih ?_ b hmem
        simpa [List.filter, hp] using h
    | false =>
      exfalso
      have hle : (List.filter p l).length ≤ l.length := l.length_filter_le p
      have : (List.filter p l).length = l.length + 1 := by
        simpa [List.filter, hp] using h
      omega

theorem findTask_updateTask (s : UState) (tid : Nat) (f : TaskRec → TaskRec)
    (hf : ∀ t, (f t).tid = t.tid) (x : Nat) :
    findTask (updateTask s tid f) x
      = (findTask s x).map (fun t => if t.tid == tid then f t else t) := by
  unfold findTask updateTask
  exact find_tid_map _ (fun t => by by_cases h : t.tid == tid <;> simp [h, hf]) _ _

theorem findTask_updateTask_ne (s : UState) (tid : Nat) (f : TaskRec → TaskRec)
    (hf : ∀ t, (f t).tid = t.tid) (x : Nat) (hx : x ≠ tid) :
    findTask (updateTask s tid f) x = findTask s x := by
  rw [findTask_updateTask s tid f hf x]
  cases h : findTask s x with
  | none => rfl
  | some t =>
    have := List.find?_some h
    have htx : t.tid = x := by simpa using this
    simp [htx, hx]

theorem taskRunning_updateTask_ne (s : UState) (tid : Nat) (f : TaskRec → TaskRec)
    (hf : ∀ t, (f t).tid = t.tid) (x : Nat) (hx : x ≠ tid) :
    taskRunning (updateTask s tid f) x = taskRunning s x := by
  unfold taskRunning
  rw [findTask_updateTask_ne s tid f hf x hx]

theorem slotFree_updateTask_ne (s : UState) (tid : Nat) (f : TaskRec → TaskRec)
    (hf : ∀ t, (f t).tid = t.tid) (o : Option Nat) (ho : o ≠ some tid) :
    slotFree (updateTask s tid f) o = slotFree s o := by
  cases o with
  | none => rfl
  | some x =>
    have hx : x ≠ tid := by
      intro h
      exact ho (by rw [h])
    simp [slotFree, taskRunning_updateTask_ne s tid f hf x hx]

theorem updateTask_tidmap (s : UState) (tid : Nat) (f : TaskRec → TaskRec)
    (hf : ∀ t, (f t).tid = t.tid) :
    (updateTask s tid f).tasks.map (fun t => t.tid) = s.tasks.map (fun t => t.tid) := by
  unfold updateTask
  simp only [List.map_map]
  apply List.map_congr_left
  intro t _
  by_cases h : t.tid = tid <;> simp [h, hf]

theorem updateTask_nextId (s : UState) (tid : Nat) (f : TaskRec → TaskRec) :
    (updateTask s tid f).nextId = s.nextId := rfl

theorem updateTask_manager (s : UState) (tid : Nat) (f : TaskRec → TaskRec) :
    (updateTask s tid f).manager = s.manager := rfl

theorem updateTask_slots (s : UState) (tid : Nat) (f : TaskRec → TaskRec) :
    (updateTask s tid f).slots = s.slots := rfl

theorem mem_updateTask {s : UState} {tid : Nat} {f : TaskRec → TaskRec}
    {t : TaskRec} (ht : t ∈ (updateTask s tid f).tasks) :
    ∃ u ∈ s.tasks, t = (if u.tid == tid then f u else u) := by
  unfold updateTask at ht
  simp only [List.mem_map] at ht
  rcases ht with ⟨u, hu, he⟩
  exact ⟨u, hu, he.symm⟩

/-! ## Lemmas about slot assignment and task creation -/

theorem assignFirstFree_eq_none (s : UState) (tid : Nat) (l : List (Option Nat)) :
    assignFirstFree s tid l = none ↔ ∀ o ∈ l, slotFree s o = false := by
  induction l with
  | nil => simp [assignFirstFree]
  | cons o rest ih =>
    cases hf : slotFree s o with
    | true => simp [assignFirstFree, hf]
    | false =>
      constructor
      · intro h o' ho'
        rcases List.mem_cons.mp ho' with rfl | hm
        · exact hf
        · refine (ih.mp ?_) o' hm
          cases hr : assignFirstFree s tid rest with
          | none => rfl
          | some l' => simp [assignFirstFree, hf, hr] at h
      · intro h
        have hnone : assignFirstFree s tid rest = none :=
          ih.mpr (fun o' ho' => h o' (List.mem_cons_of_mem _ ho'))
        simp [assignFirstFree, hf, hnone]

theorem assignFirstFree_eq_some (s : UState) (tid : Nat) :
    ∀ (l l' : List (Option Nat)), assignFirstFree s tid l = some l' →
    ∃ l₁ o l₂, l = l₁ ++ o :: l₂ ∧ l' = l₁ ++ some tid :: l₂ ∧ slotFree s o = true
      ∧ ∀ o' ∈ l₁, slotFree s o' = false := by
  intro l
  induction l with
  | nil => intro l' h; cases h
  | cons o rest ih =>
    intro l' h
    cases hf : slotFree s o with
    | true =>
      simp only [assignFirstFree, hf, if_true] at h
      refine ⟨[], o, rest, by simp, ?_, hf, by simp⟩
      exact (Option.some.inj h).symm
    | false =>
      cases hr : assignFirstFree s tid rest with
      | none => simp [assignFirstFree, hf, hr] at h
      | some rest' =>
        have hl' : l' = o :: rest' := by
          simp [assignFirstFree, hf, hr] at h
          first
          | exact h
          | exact h.symm
        rcases ih rest' hr with ⟨l₁, o₁, l₂, he, he', hfree, hall⟩
        refine ⟨o :: l₁, o₁, l₂, by simp [he], by simp [hl', he'], hfree, ?_⟩
        intro o' ho'
        rcases List.mem_cons.mp ho' with rfl | hm
        · exact hf
        · exact hall o' hm

/-- The intermediate state of create_search_task, after the task is
created and appended to the manager and before the slot loop. -/
def createMid (v : Bool) (s : UState) : UState :=
  { nextId := s.nextId + 1
    tasks := s.tasks ++ [⟨s.nextId, .running, v, false, 0⟩]
    manager := s.manager ++ [s.nextId]
    slots := s.slots }

theorem taskRunning_createMid (v : Bool) (s : UState) (x : Nat) (hx : x ≠ s.nextId) :
    taskRunning (createMid v s) x = taskRunning s x := by
  unfold taskRunning findTask createMid
  simp only
  rw [find_tid_append s.tasks _ x (by simpa using hx)]

theorem slotFree_createMid (v : Bool) (s : UState) (o : Option Nat)
    (ho : o ≠ some s.nextId) : slotFree (createMid v s) o = slotFree s o := by
  cases o with
  | none => rfl
  | some x =>
    have hx : x ≠ s.nextId := fun h => ho (by rw [h])
    simp [slotFree, taskRunning_createMid v s x hx]

theorem create_search_task_eq (v : Bool) (s : UState) :
    create_search_task v s
      = match assignFirstFree (createMid v s) s.nextId s.slots with
        | some slots1 => ({ createMid v s with slots := slots1 }, true)
        | none => (setStatus (createMid v s) s.nextId .cancelled, false) := rfl

/-! ## Lemmas about the cancel sweep -/

theorem setStatus_tidmap (s : UState) (tid : Nat) (st : TStatus) :
    (setStatus s tid st).tasks.map (fun t => t.tid) = s.tasks.map (fun t => t.tid) :=
  updateTask_tidmap s tid _ (fun _ => rfl)

theorem cancelSlots_cons_none (s : UState) (rest : List (Option Nat)) :
    cancelSlots s (none :: rest) = cancelSlots s rest := rfl

theorem cancelSlots_cons_run {s : UState} {tid : Nat} {rest : List (Option Nat)}
    (h : taskRunning s tid = true) :
    cancelSlots s (some tid :: rest)
      = ((cancelSlots (setStatus s tid .cancelled) rest).1,
         (cancelSlots (setStatus s tid .cancelled) rest).2 + 1) := by
  simp [cancelSlots, h]

theorem cancelSlots_cons_dead {s : UState} {tid : Nat} {rest : List (Option Nat)}
    (h : taskRunning s tid = false) :
    cancelSlots s (some tid :: rest) = cancelSlots s rest := by
  simp [cancelSlots, h]

theorem cancelSlots_nextId (l : List (Option Nat)) :
    ∀ s : UState, ((cancelSlots s l).1).nextId = s.nextId := by
  induction l with
  | nil => intro s; rfl
  | cons o rest ih =>
    intro s
    cases o with
    | none => exact ih s
    | some tid =>
      cases hr : taskRunning s tid with
      | true => rw [cancelSlots_cons_run hr]; exact ih _
      | false => rw [cancelSlots_cons_dead hr]; exact ih s

theorem cancelSlots_manager (l : List (Option Nat)) :
    ∀ s : UState, ((cancelSlots s l).1).manager = s.manager := by
  induction l with
  | nil => intro s; rfl
  | cons o rest ih =>
    intro s
    cases o with
    | none => exact ih s
    | some tid =>
      cases hr : taskRunning s tid with
      | true => rw [cancelSlots_cons_run hr]; exact ih _
      | false => rw [cancelSlots_cons_dead hr]; exact ih s

theorem cancelSlots_slots (l : List (Option Nat)) :
    ∀ s : UState, ((cancelSlots s l).1).slots = s.slots := by
  induction l with
  | nil => intro s; rfl
  | cons o rest ih =>
    intro s
    cases o with
    | none => exact ih s
    | some tid =>
      cases hr : taskRunning s tid with
      | true => rw [cancelSlots_cons_run hr]; exact ih _
      | false => rw [cancelSlots_cons_dead hr]; exact ih s

theorem cancelSlots_tidmap (l : List (Option Nat)) :
    ∀ s : UState,
    ((cancelSlots s l).1).tasks.map (fun t => t.tid) = s.tasks.map (fun t => t.tid) := by
  induction l with
  | nil => intro s; rfl
  | cons o rest ih =>
    intro s
    cases o with
    | none => exact ih s
    | some tid =>
      cases hr : taskRunning s tid with
      | true =>
        rw [cancelSlots_cons_run hr]
        calc ((cancelSlots (setStatus s tid .cancelled) rest).1).tasks.map (fun t => t.tid)
            = (setStatus s tid .cancelled).tasks.map (fun t => t.tid) := ih _
          _ = s.tasks.map (fun t => t.tid) := setStatus_tidmap s tid .cancelled
      | false => rw [cancelSlots_cons_dead hr]; exact ih s

theorem cancelSlots_fields (l : List (Option Nat)) :
    ∀ s : UState, ∀ t ∈ ((cancelSlots s l).1).tasks,
    ∃ u ∈ s.tasks, t.tid = u.tid ∧ t.valid = u.valid ∧ t.ran = u.ran
      ∧ t.fetches = u.fetches := by
  induction l with
  | nil =>
    intro s t ht
    exact ⟨t, ht, rfl, rfl, rfl, rfl⟩
  | cons o rest ih =>
    intro s t ht
    cases o with
    | none => exact ih s t ht
    | some tid =>
      cases hr : taskRunning s tid with
      | true =>
        rw [cancelSlots_cons_run hr] at ht
        rcases ih _ t ht with ⟨u, hu, he⟩
        rcases mem_updateTask hu with ⟨w, hw, hew⟩
        refine ⟨w, hw, ?_⟩
        by_cases hwt : w.tid = tid <;> simp [hew, hwt] at he ⊢ <;>
          exact ⟨he.1, he.2.1, he.2.2.1, he.2.2.2⟩
      | false =>
        rw [cancelSlots_cons_dead hr] at ht
        exact ih s t ht

theorem slotFree_setStatus_ne (s : UState) (tid : Nat) (st : TStatus)
    (o : Option Nat) (ho : o ≠ some tid) :
    slotFree (setStatus s tid st) o = slotFree s o :=
  slotFree_updateTask_ne s tid (fun t => { t with status := st }) (fun _ => rfl) o ho

theorem cancelSlots_count (l : List (Option Nat)) :
    ∀ s : UState, (l.filterMap id).Nodup →
    (cancelSlots s l).2 = (l.filter (fun o => ! slotFree s o)).length := by
  induction l with
  | nil => intro s _; rfl
  | cons o rest ih =>
    intro s hnd
    cases o with
    | none =>
      rw [cancelSlots_cons_none]
      have : slotFree s none = true := rfl
      simp only [List.filter_cons, this, Bool.not_true]
      exact ih s (by simpa using hnd)
    | some tid =>
      have hcons : (tid :: rest.filterMap id).Nodup := by simpa using hnd
      have htl := (List.nodup_cons.mp hcons).2
      have hni := (List.nodup_cons.mp hcons).1
      cases hr : taskRunning s tid with
      | true =>
        rw [cancelSlots_cons_run hr]
        have hfree : slotFree s (some tid) = false := by simp [slotFree, hr]
        have htrans : rest.filter (fun o => ! slotFree (setStatus s tid .cancelled) o)
            = rest.filter (fun o => ! slotFree s o) := by
          apply List.filter_congr
          intro o ho
          have hne : o ≠ some tid := by
            intro he
            apply hni
            rw [he] at ho
            exact List.mem_filterMap.mpr ⟨some tid, ho, rfl⟩
          rw [slotFree_setStatus_ne s tid .cancelled o hne]
        rw [ih _ htl, htrans]
        simp [List.filter_cons, hfree]
      | false =>
        rw [cancelSlots_cons_dead hr]
        have hfree : slotFree s (some tid) = true := by simp [slotFree, hr]
        simp only [List.filter_cons, hfree, Bool.not_true]
        exact ih s htl

theorem cancelSlots_no_running (l : List (Option Nat)) :
    ∀ s : UState, (l.filterMap id).Nodup →
    (s.tasks.map (fun t => t.tid)).Nodup →
    (∀ t ∈ s.tasks, t.status = .running → some t.tid ∈ l) →
    ∀ t ∈ ((cancelSlots s l).1).tasks, t.status ≠ .running := by
  induction l with
  | nil =>
    intro s _ _ hcov t ht hrun
    have := hcov t ht hrun
    simp at this
  | cons o rest ih =>
    intro s hnd htnd hcov
    cases o with
    | none =>
      rw [cancelSlots_cons_none]
      refine ih s (by simpa using hnd) htnd ?_
      intro t ht hrun
      have := hcov t ht hrun
      rcases List.mem_cons.mp this with h | h
      · cases h
      · exact h
    | some tid =>
      have hcons : (tid :: rest.filterMap id).Nodup := by simpa using hnd
      have htl := (List.nodup_cons.mp hcons).2
      have hni := (List.nodup_cons.mp hcons).1
      cases hr : taskRunning s tid with
      | true =>
        rw [cancelSlots_cons_run hr]
        refine ih _ htl ?_ ?_
        · rw [setStatus_tidmap]; exact htnd
        · intro t ht hrun
          rcases mem_updateTask ht with ⟨u, hu, he⟩
          by_cases hut : u.tid = tid
          · exfalso
            rw [he] at hrun
            simp [hut] at hrun
          · rw [he] at hrun ⊢
            simp only [hut, if_neg, beq_iff_eq] at hrun ⊢
            have := hcov u hu (by simpa [hut] using hrun)
            rcases List.mem_cons.mp this with h | h
            · exact absurd (Option.some.inj h) hut
            · simpa [hut] using h
      | false =>
        rw [cancelSlots_cons_dead hr]
        refine ih s htl htnd ?_
        intro t ht hrun
        have hmem := hcov t ht hrun
        rcases List.mem_cons.mp hmem with h | h
        · exfalso
          have htid : t.tid = tid := Option.some.inj h
          have hfind : findTask s tid = some t := by
            have := find_tid_of_nodup s.tasks htnd t ht
            rw [htid] at this
            exact this
          have : taskRunning s tid = true := by
            simp [taskRunning, hfind, hrun]
          rw [this] at hr
          cases hr
        · exact h

/-! ## Preservation of the registry invariants -/

theorem wf_init : WF initState := by
  constructor <;> simp [initState, max_concurrent_searches]

theorem wf_updateTask (s : UState) (tid : Nat) (f : TaskRec → TaskRec) (hW : WF s)
    (hf : ∀ t, (f t).tid = t.tid)
    (hrun : ∀ u ∈ s.tasks, u.tid = tid → (f u).status = .running → u.status = .running)
    (hvalid : ∀ u ∈ s.tasks, u.tid = tid → (f u).valid = false → (f u).fetches = 0)
    (hran : ∀ u ∈ s.tasks, u.tid = tid → (f u).ran = false → (f u).fetches = 0) :
    WF (updateTask s tid f) := by
  have hmem : ∀ t ∈ (updateTask s tid f).tasks,
      ∃ u ∈ s.tasks, t = (if u.tid == tid then f u else u) :=
    fun t ht => mem_updateTask ht
  constructor
  · exact hW.slotsLen
  · exact hW.slotIdsLt
  · exact hW.slotIdsNodup
  · intro t ht
    rcases hmem t ht with ⟨u, hu, he⟩
    have : t.tid = u.tid := by
      by_cases h : u.tid = tid <;> simp [he, h, hf]
    rw [this]
    exact hW.taskIdsLt u hu
  · intro t ht hst
    rcases hmem t ht with ⟨u, hu, he⟩
    by_cases h : u.tid = tid
    · have htu : t = f u := by simp [he, h]
      have : u.status = .running := hrun u hu h (htu ▸ hst)
      have htid : t.tid = u.tid := by simp [htu, hf]
      rw [htid]
      exact hW.runningSlotted u hu this
    · have htu : t = u := by simp [he, h]
      rw [htu]
      exact hW.runningSlotted u hu (htu ▸ hst)
  · rw [updateTask_tidmap s tid f hf]
    exact hW.taskIdsNodup
  · intro t ht
    rcases hmem t ht with ⟨u, hu, he⟩
    have : t.tid = u.tid := by
      by_cases h : u.tid = tid <;> simp [he, h, hf]
    rw [updateTask_manager, this]
    exact hW.inManager u hu
  · intro t ht hv
    rcases hmem t ht with ⟨u, hu, he⟩
    by_cases h : u.tid = tid
    · have htu : t = f u := by simp [he, h]
      exact htu ▸ hvalid u hu h (htu ▸ hv)
    · have htu : t = u := by simp [he, h]
      rw [htu]
      exact hW.invalidNoFetch u hu (htu ▸ hv)
  · intro t ht hv
    rcases hmem t ht with ⟨u, hu, he⟩
    by_cases h : u.tid = tid
    · have htu : t = f u := by simp [he, h]
      exact htu ▸ hran u hu h (htu ▸ hv)
    · have htu : t = u := by simp [he, h]
      rw [htu]
      exact hW.notRanNoFetch u hu (htu ▸ hv)

theorem wf_workerValidateFail (s : UState) (tid : Nat) (hW : WF s) :
    WF (workerValidateFail s tid) := by
  refine wf_updateTask s tid _ hW (fun _ => rfl) ?_ ?_ ?_
  · intro u _ _ h
    cases h
  · intro u hu _ hv
    exact hW.invalidNoFetch u hu hv
  · intro u _ _ h
    cases h

theorem wf_workerBegin (s : UState) (tid : Nat) (hW : WF s) :
    WF (workerBegin s tid) := by
  refine wf_updateTask s tid _ hW (fun _ => rfl) ?_ ?_ ?_
  · intro u _ _ h
    exact h
  · intro u hu _ hv
    exact hW.invalidNoFetch u hu hv
  · intro u _ _ h
    cases h

theorem wf_workerFetch (s : UState) (tid : Nat) (t : TaskRec)
    (hfind : findTask s tid = some t) (hval : t.valid = true) (hr : t.ran = true)
    (hW : WF s) : WF (workerFetch s tid) := by
  have huniq : ∀ u ∈ s.tasks, u.tid = tid → u = t := by
    intro u hu he
    have h1 := find_tid_of_nodup s.tasks hW.taskIdsNodup u hu
    rw [he] at h1
    unfold findTask at hfind
    rw [hfind] at h1
    exact (Option.some.inj h1).symm
  refine wf_updateTask s tid _ hW (fun _ => rfl) ?_ ?_ ?_
  · intro u _ _ h
    exact h
  · intro u hu he hv
    exfalso
    rw [huniq u hu he] at hv
    rw [hval] at hv
    cases hv
  · intro u hu he hv
    exfalso
    rw [huniq u hu he] at hv
    rw [hr] at hv
    cases hv

theorem wf_workerFinish (s : UState) (tid : Nat) (hW : WF s) :
    WF (workerFinish s tid) := by
  refine wf_updateTask s tid _ hW (fun _ => rfl) ?_ ?_ ?_
  · intro u _ _ h
    cases h
  · intro u hu _ hv
    exact hW.invalidNoFetch u hu hv
  · intro u hu _ hv
    exact hW.notRanNoFetch u hu hv

theorem mem_createMid_tasks {v : Bool} {s : UState} {t : TaskRec}
    (ht : t ∈ (createMid v s).tasks) :
    t ∈ s.tasks ∨ t = ⟨s.nextId, .running, v, false, 0⟩ := by
  have : t ∈ s.tasks ++ [(⟨s.nextId, .running, v, false, 0⟩ : TaskRec)] := ht
  rcases List.mem_append.mp this with h | h
  · exact Or.inl h
  · exact Or.inr (List.mem_singleton.mp h)


theorem createMid_tidmap (v : Bool) (s : UState) :
    (createMid v s).tasks.map (fun t => t.tid)
      = s.tasks.map (fun t => t.tid) ++ [s.nextId] := by
  simp [createMid]


theorem createMid_tid_nodup (v : Bool) (s : UState) (hW : WF s) :
    ((createMid v s).tasks.map (fun t => t.tid)).Nodup := by
  rw [createMid_tidmap]
  have hnotin : s.nextId ∉ s.tasks.map (fun t => t.tid) := by
    intro h
    rcases List.mem_map.mp h with ⟨u, hu, he⟩
    have := hW.taskIdsLt u hu
    omega
  rw [List.nodup_append]
  refine ⟨hW.taskIdsNodup, List.nodup_singleton _, ?_⟩
  intro a ha hb
  rw [List.mem_singleton] at hb
  subst hb
  exact hnotin ha

theorem nodup_insert_fresh {A B : List Nat} {n : Nat}
    (hA : A.Nodup) (hB : B.Nodup) (hd : A.Disjoint B)
    (hn : n ∉ A ++ B) : (A ++ n :: B).Nodup := by
  rw [List.nodup_append]
  refine ⟨hA, ?_, ?_⟩
  · rw [List.nodup_cons]
    exact ⟨fun h => hn (List.mem_append_right _ h), hB⟩
  · intro a ha hb
    rcases List.mem_cons.mp hb with rfl | hb
    · exact hn (List.mem_append_left _ ha)
    · exact hd ha hb

theorem slotFree_slots_createMid (v : Bool) (s : UState) (hW : WF s) :
    ∀ o ∈ s.slots, slotFree (createMid v s) o = slotFree s o := by
  intro o ho
  cases o with
  | none => rfl
  | some tid =>
    have hlt : tid < s.nextId := hW.slotIdsLt tid ho
    refine slotFree_createMid v s _ ?_
    intro h
    injection h with h2
    omega

theorem nextId_notin_slot_ids (s : UState) (hW : WF s) {l₁ l₂ : List (Option Nat)}
    {o : Option Nat} (he : s.slots = l₁ ++ o :: l₂) :
    s.nextId ∉ l₁.filterMap id ++ l₂.filterMap id := by
  intro hmem
  have hsome : some s.nextId ∈ s.slots := by
    rw [he]
    rcases List.mem_append.mp hmem with h | h
    · rcases List.mem_filterMap.mp h with ⟨b, hb, he2⟩
      have hbe : b = some s.nextId := he2
      exact List.mem_append_left _ (hbe ▸ hb)
    · rcases List.mem_filterMap.mp h with ⟨b, hb, he2⟩
      have hbe : b = some s.nextId := he2
      exact List.mem_append_right _ (List.mem_cons_of_mem _ (hbe ▸ hb))
  have := hW.slotIdsLt s.nextId hsome
  omega

theorem wf_create (v : Bool) (s : UState) (hW : WF s) :
    WF (create_search_task v s).1 := by
  rw [create_search_task_eq]
  cases hassign : assignFirstFree (createMid v s) s.nextId s.slots with
  | some slots1 =>
    rcases assignFirstFree_eq_some _ _ _ _ hassign with
      ⟨l₁, o, l₂, he, he', hfree, hall⟩
    constructor
    · show slots1.length = max_concurrent_searches
      have h1 := hW.slotsLen
      rw [he] at h1
      simpa [he'] using h1
    · show ∀ tid : Nat, some tid ∈ slots1 → tid < s.nextId + 1
      intro tid h
      rw [he'] at h
      rcases List.mem_append.mp h with h | h
      · have hmem : some tid ∈ s.slots := by
          rw [he]
          exact List.mem_append_left _ h
        exact Nat.lt_succ_of_lt (hW.slotIdsLt tid hmem)
      · rcases List.mem_cons.mp h with h | h
        · have h2 : tid = s.nextId := by
            injection h
          omega
        · have hmem : some tid ∈ s.slots := by
            rw [he]
            exact List.mem_append_right _ (List.mem_cons_of_mem _ h)
          exact Nat.lt_succ_of_lt (hW.slotIdsLt tid hmem)
    · show (slots1.filterMap id).Nodup
      have horig := hW.slotIdsNodup
      rw [he] at horig
      rw [he']
      have hnot := nextId_notin_slot_ids s hW he
      cases o with
      | none =>
        rw [List.filterMap_append, List.filterMap_cons_none rfl] at horig
        rw [List.filterMap_append,
          List.filterMap_cons_some (rfl : id (some s.nextId) = some s.nextId)]
        rcases List.nodup_append.mp horig with ⟨hA, hB, hd⟩
        exact nodup_insert_fresh hA hB hd hnot
      | some m =>
        rw [List.filterMap_append,
          List.filterMap_cons_some (rfl : id (some m) = some m)] at horig
        rw [List.filterMap_append,
          List.filterMap_cons_some (rfl : id (some s.nextId) = some s.nextId)]
        rcases List.nodup_append.mp horig with ⟨hA, hmB, hd⟩
        have hB := (List.nodup_cons.mp hmB).2
        refine nodup_insert_fresh hA hB ?_ hnot
        intro a ha hb
        exact hd ha (List.mem_cons_of_mem _ hb)
    · show ∀ t ∈ (createMid v s).tasks, t.tid < s.nextId + 1
      intro t ht
      rcases mem_createMid_tasks ht with h | h
      · exact Nat.lt_succ_of_lt (hW.taskIdsLt t h)
      · rw [h]
        exact Nat.lt_succ_self _
    · show ∀ t ∈ (createMid v s).tasks, t.status = .running → some t.tid ∈ slots1
      intro t ht hst
      rcases mem_createMid_tasks ht with h | h
      · have hs0 : some t.tid ∈ s.slots := hW.runningSlotted t h hst
        rw [he] at hs0
        rw [he']
        rcases List.mem_append.mp hs0 with hm | hm
        · exact List.mem_append_left _ hm
        · rcases List.mem_cons.mp hm with hm | hm
          · exfalso
            have hrun : taskRunning s t.tid = true := by
              have hfind := find_tid_of_nodup s.tasks hW.taskIdsNodup t h
              simp [taskRunning, findTask, hfind, hst]
            have hfs : slotFree s o = false := by
              rw [← hm]
              simp [slotFree, hrun]
            have hos : o ∈ s.slots := by
              rw [he]
              exact List.mem_append_right _ (List.mem_cons_self _ _)
            have htr := slotFree_slots_createMid v s hW o hos
            rw [hfree, hfs] at htr
            cases htr
          · exact List.mem_append_right _ (List.mem_cons_of_mem _ hm)
      · rw [h, he']
        exact List.mem_append_right _ (List.mem_cons_self _ _)
    · show ((createMid v s).tasks.map (fun t => t.tid)).Nodup
      exact createMid_tid_nodup v s hW
    · show ∀ t ∈ (createMid v s).tasks, t.tid ∈ s.manager ++ [s.nextId]
      intro t ht
      rcases mem_createMid_tasks ht with h | h
      · exact List.mem_append_left _ (hW.inManager t h)
      · rw [h]
        exact List.mem_append_right _ (List.mem_singleton.mpr rfl)
    · show ∀ t ∈ (createMid v s).tasks, t.valid = false → t.fetches = 0
      intro t ht hv
      rcases mem_createMid_tasks ht with h | h
      · exact hW.invalidNoFetch t h hv
      · rw [h]
    · show ∀ t ∈ (createMid v s).tasks, t.ran = false → t.fetches = 0
      intro t ht hv
      rcases mem_createMid_tasks ht with h | h
      · exact hW.notRanNoFetch t h hv
      · rw [h]
  | none =>
    have hmemchar : ∀ t ∈ (setStatus (createMid v s) s.nextId .cancelled).tasks,
        t ∈ s.tasks ∨ t = ⟨s.nextId, .cancelled, v, false, 0⟩ := by
      intro t ht
      rcases mem_updateTask ht with ⟨u, hu, heu⟩
      rcases mem_createMid_tasks hu with h | h
      · have hne : u.tid ≠ s.nextId := by
          have := hW.taskIdsLt u h
          omega
        left
        rw [heu]
        simp [hne]
        exact h
      · right
        rw [heu, h]
        simp
    constructor
    · show s.slots.length = max_concurrent_searches
      exact hW.slotsLen
    · show ∀ tid : Nat, some tid ∈ s.slots → tid < s.nextId + 1
      intro tid h
      exact Nat.lt_succ_of_lt (hW.slotIdsLt tid h)
    · show (s.slots.filterMap id).Nodup
      exact hW.slotIdsNodup
    · intro t ht
      show t.tid < s.nextId + 1
      rcases hmemchar t ht with h | h
      · exact Nat.lt_succ_of_lt (hW.taskIdsLt t h)
      · rw [h]
        exact Nat.lt_succ_self _
    · intro t ht hst
      show some t.tid ∈ s.slots
      rcases hmemchar t ht with h | h
      · exact hW.runningSlotted t h hst
      · rw [h] at hst
        cases hst
    · show ((setStatus (createMid v s) s.nextId .cancelled).tasks.map
        (fun t => t.tid)).Nodup
      rw [setStatus_tidmap]
      exact createMid_tid_nodup v s hW
    · intro t ht
      show t.tid ∈ s.manager ++ [s.nextId]
      rcases hmemchar t ht with h | h
      · exact List.mem_append_left _ (hW.inManager t h)
      · rw [h]
        exact List.mem_append_right _ (List.mem_singleton.mpr rfl)
    · intro t ht hv
      show t.fetches = 0
      rcases hmemchar t ht with h | h
      · exact hW.invalidNoFetch t h hv
      · rw [h]
    · intro t ht hv
      show t.fetches = 0
      rcases hmemchar t ht with h | h
      · exact hW.notRanNoFetch t h hv
      · rw [h]

theorem cancel_eq_empty {s : UState} (h : s.slots.all Option.isNone = true) :
    cancel s = (s, 0) := by
  simp [cancel, h]

theorem cancel_eq {s : UState} (h : s.slots.all Option.isNone = false) :
    cancel s
      = ({ (cancelSlots s s.slots).1 with slots := s.slots.map (fun _ => none) },
         (cancelSlots s s.slots).2) := by
  simp [cancel, h]

theorem filterMap_id_map_none (l : List (Option Nat)) :
    (l.map (fun _ => (none : Option Nat))).filterMap id = [] := by
  induction l with
  | nil => rfl
  | cons o rest ih => simp [ih]

theorem contains_of_mem (l : List Nat) (a : Nat) (h : a ∈ l) :
    l.contains a = true := by
  induction l with
  | nil => cases h
  | cons b rest ih =>
    rcases List.mem_cons.mp h with rfl | hm
    · simp [List.contains]
    · simp [List.contains]
      right
      simpa [List.contains] using ih hm

theorem wf_cancel (s : UState) (hW : WF s) : WF (cancel s).1 := by
  cases hall : s.slots.all Option.isNone with
  | true =>
    rw [cancel_eq_empty hall]
    exact hW
  | false =>
    rw [cancel_eq hall]
    have hfields := cancelSlots_fields s.slots s
    have hnorun := cancelSlots_no_running s.slots s hW.slotIdsNodup
      hW.taskIdsNodup hW.runningSlotted
    constructor
    · show (s.slots.map (fun _ => none)).length = max_concurrent_searches
      rw [List.length_map]
      exact hW.slotsLen
    · intro tid h
      exfalso
      have : some tid ∈ s.slots.map (fun _ => (none : Option Nat)) := h
      rcases List.mem_map.mp this with ⟨o, _, heq⟩
      cases heq
    · show ((s.slots.map (fun _ => none)).filterMap id).Nodup
      rw [filterMap_id_map_none]
      exact List.nodup_nil
    · intro t ht
      show t.tid < ((cancelSlots s s.slots).1).nextId
      rw [cancelSlots_nextId]
      rcases hfields t ht with ⟨u, hu, htid, _, _, _⟩
      rw [htid]
      exact hW.taskIdsLt u hu
    · intro t ht hst
      exact absurd hst (hnorun t ht)
    · show (((cancelSlots s s.slots).1).tasks.map (fun t => t.tid)).Nodup
      rw [cancelSlots_tidmap]
      exact hW.taskIdsNodup
    · intro t ht
      show t.tid ∈ ((cancelSlots s s.slots).1).manager
      rw [cancelSlots_manager]
      rcases hfields t ht with ⟨u, hu, htid, _, _, _⟩
      rw [htid]
      exact hW.inManager u hu
    · intro t ht hv
      rcases hfields t ht with ⟨u, hu, _, hval, _, hfet⟩
      rw [hfet]
      exact hW.invalidNoFetch u hu (hval ▸ hv)
    · intro t ht hv
      rcases hfields t ht with ⟨u, hu, _, _, hran, hfet⟩
      rw [hfet]
      exact hW.notRanNoFetch u hu (hran ▸ hv)

theorem cancel_all_tasks_fields (s : UState) (u : TaskRec) :
    ((if s.manager.contains u.tid && u.status == TStatus.running then
        { u with status := .cancelled } else u) : TaskRec).tid = u.tid
    ∧ ((if s.manager.contains u.tid && u.status == TStatus.running then
        { u with status := .cancelled } else u) : TaskRec).valid = u.valid
    ∧ ((if s.manager.contains u.tid && u.status == TStatus.running then
        { u with status := .cancelled } else u) : TaskRec).ran = u.ran
    ∧ ((if s.manager.contains u.tid && u.status == TStatus.running then
        { u with status := .cancelled } else u) : TaskRec).fetches = u.fetches := by
  by_cases h : (s.manager.contains u.tid && u.status == TStatus.running) = true
  · rw [if_pos h]
    exact ⟨rfl, rfl, rfl, rfl⟩
  · rw [if_neg h]
    exact ⟨rfl, rfl, rfl, rfl⟩

theorem wf_cancel_all (s : UState) (hW : WF s) : WF (cancel_all_tasks s) := by
  have hmem : ∀ t ∈ (cancel_all_tasks s).tasks,
      ∃ u ∈ s.tasks,
        t = (if s.manager.contains u.tid && u.status == TStatus.running then
          { u with status := .cancelled } else u) := by
    intro t ht
    rcases List.mem_map.mp ht with ⟨u, hu, he⟩
    exact ⟨u, hu, he.symm⟩
  constructor
  · exact hW.slotsLen
  · exact hW.slotIdsLt
  · exact hW.slotIdsNodup
  · intro t ht
    rcases hmem t ht with ⟨u, hu, he⟩
    have := (cancel_all_tasks_fields s u).1
    rw [he, this]
    exact hW.taskIdsLt u hu
  · intro t ht hst
    exfalso
    rcases hmem t ht with ⟨u, hu, he⟩
    by_cases h : (s.manager.contains u.tid && u.status == TStatus.running) = true
    · rw [he, if_pos h] at hst
      exact TStatus.noConfusion hst
    · have htu : t = u := by rw [he, if_neg h]
      rw [htu] at hst
      apply h
      rw [Bool.and_eq_true]
      refine ⟨contains_of_mem s.manager u.tid (hW.inManager u hu), ?_⟩
      simp [hst]
  · show ((s.tasks.map (fun u =>
        if s.manager.contains u.tid && u.status == TStatus.running then
          { u with status := TStatus.cancelled } else u)).map (fun t => t.tid)).Nodup
    rw [List.map_map]
    have : ((fun t : TaskRec => t.tid) ∘ (fun u =>
        if s.manager.contains u.tid && u.status == TStatus.running then
          { u with status := TStatus.cancelled } else u))
        = fun t : TaskRec => t.tid := by
      funext u
      exact (cancel_all_tasks_fields s u).1
    rw [this]
    exact hW.taskIdsNodup
  · intro t ht
    rcases hmem t ht with ⟨u, hu, he⟩
    have := (cancel_all_tasks_fields s u).1
    rw [he, this]
    exact hW.inManager u hu
  · intro t ht hv
    rcases hmem t ht with ⟨u, hu, he⟩
    have h2 := (cancel_all_tasks_fields s u).2.1
    have h4 := (cancel_all_tasks_fields s u).2.2.2
    rw [he] at hv ⊢
    rw [h4]
    exact hW.invalidNoFetch u hu (by rw [← h2]; exact hv)
  · intro t ht hv
    rcases hmem t ht with ⟨u, hu, he⟩
    have h3 := (cancel_all_tasks_fields s u).2.2.1
    have h4 := (cancel_all_tasks_fields s u).2.2.2
    rw [he] at hv ⊢
    rw [h4]
    exact hW.notRanNoFetch u hu (by rw [← h3]; exact hv)

theorem reachable_wf : ∀ s : UState, Reachable s → WF s := by
  intro s h
  induction h with
  | init => exact wf_init
  | create v _ ih => exact wf_create v _ ih
  | validateFail tid t _ _ _ _ _ ih => exact wf_workerValidateFail _ tid ih
  | wbegin tid t _ _ _ _ _ ih => exact wf_workerBegin _ tid ih
  | wfetch tid t _ hfind _ hran hval ih =>
    exact wf_workerFetch _ tid t hfind hval hran ih
  | wfinish tid t _ _ _ _ ih => exact wf_workerFinish _ tid ih
  | ucancel _ ih => exact wf_cancel _ ih
  | callAll _ ih => exact wf_cancel_all _ ih

/-! ## Claim C1 — monitoring after a success -/

/-- A page whose schedule row for 15:29 allows ticket sale. -/
def availSoupC1 : Soup :=
  ⟨none, none, [⟨"15:29", some ⟨some "true"⟩⟩]⟩

/-- C1 counterexample: the claim says the first fetch that parses to
Available causes exactly one success notification and the search then
terminates with no further fetches.  On a trace of two successive
Available pages the loop sends TWO success messages, performs a second
fetch after the first success, and is still running afterwards: after
sending the success message the code falls through to the sleep and
continues the while-loop (handlers.py lines 368-385 have no return). -/
theorem c1_counterexample :
    monitor_ticket_availability "15:29"
      [.response 200 availSoupC1, .response 200 availSoupC1]
      = ⟨[.success, .success], false, 2⟩ := by
  decide

/-- C1 amended: during monitoring, every fetch that parses to Available
causes exactly one success notification for that fetch, after which the
loop continues with the remaining trace (one more fetch is counted and the
continuation decides termination); the search does not terminate on
success. -/
theorem c1_available_continues (target : String) (soup : Soup)
    (rest : List MEvent) (h : monitorClassify soup target = .available) :
    monitor_ticket_availability target (.response 200 soup :: rest)
      = ⟨.success :: (monitor_ticket_availability target rest).msgs,
         (monitor_ticket_availability target rest).finished,
         (monitor_ticket_availability target rest).fetches + 1⟩ := by
  simp [monitor_ticket_availability, h]

/-- Witness for C1: on the one-Available trace the worker sends exactly one
success message, counts one fetch, and has not terminated. -/
theorem c1_available_continues_witness :
    monitorClassify availSoupC1 "15:29" = .available
    ∧ monitor_ticket_availability "15:29" [.response 200 availSoupC1]
        = ⟨[.success], false, 1⟩ :=
  ⟨by decide, c1_available_continues "15:29" availSoupC1 [] (by decide)⟩

/-! ## Claim C2 — network errors during monitoring -/

/-- C2 counterexample: the claim says that when the fetcher exhausts its
retries and raises a network error during monitoring, the worker logs and
continues the outer loop.  The code's except arm for
aiohttp.ClientError/asyncio.TimeoutError (handlers.py lines 387-397) sends
the server-unavailable message and returns: on a one-netError trace the
run is finished (true) with the serverDown message, where the claim
requires an unfinished run with no user-facing message. -/
theorem c2_counterexample :
    monitor_ticket_availability "15:29" [.netError]
      = ⟨[.serverDown], true, 1⟩ := by
  decide

/-- C2 amended: a network-error burst that exhausts the fetcher's internal
retries makes the monitoring worker send the server-unavailable message
and terminate the search at once (whatever the rest of the trace holds);
only the generic except-Exception arm logs and continues the loop. -/
theorem c2_neterror_terminates (target : String) (rest : List MEvent) :
    monitor_ticket_availability target (.netError :: rest)
      = ⟨[.serverDown], true, 1⟩
    ∧ monitor_ticket_availability target (.exc :: rest)
        = ⟨(monitor_ticket_availability target rest).msgs,
           (monitor_ticket_availability target rest).finished,
           (monitor_ticket_availability target rest).fetches + 1⟩ :=
  ⟨rfl, rfl⟩

/-! ## Claim C4 — the availability classification -/

/-- A page whose first 15:29 time element sits outside any schedule row
while a later 15:29 row allows sale. -/
def straySoupC4 : Soup :=
  ⟨none, none, [⟨"15:29", none⟩, ⟨"15:29", some ⟨some "true"⟩⟩]⟩

/-- A benign page: every time element sits inside a schedule row. -/
def rowSoupC4 : Soup :=
  ⟨none, none, [⟨"10:00", some ⟨some "false"⟩⟩, ⟨"15:29", some ⟨some "true"⟩⟩]⟩

/-- C4 counterexample: the claim classifies by the existence of a schedule
row whose departure-time label equals the target.  straySoupC4 has such a
row with the sale flag true, so the claimed order yields Available
(classifySpec); the code instead takes the FIRST matching time element
(soup.find), whose find_parent is None, and reports the not-found outcome
(the monitor sends the wrong-parameters message and returns), so the row
never decides. -/
theorem c4_counterexample :
    classify straySoupC4 "15:29" = .trainNotFound
    ∧ classifySpec straySoupC4 "15:29" = .available := by
  decide

theorem locate_cong (l : List TimeDiv) (target : String)
    (h : ∀ d ∈ l, d.parentRow.isSome = true) :
    l.find? (fun d => d.text == target)
      = l.find? (fun d => d.text == target && d.parentRow.isSome) := by
  induction l with
  | nil => rfl
  | cons d rest ih =>
    have hd := h d (List.mem_cons_self d rest)
    have hrest := fun x hx => h x (List.mem_cons_of_mem d hx)
    simp only [List.find?, hd, Bool.and_true]
    cases hdt : (d.text == target) with
    | true => rfl
    | false => exact ih hrest

/-- C4 amended: the classification order the claim describes (error region
first, then TrainNotFound when no schedule row carries the target time,
then the located row's sale flag) agrees with what the code computes on
every page in which each departure-time element lies inside a schedule
row.  In general the code locates the first departure-time element equal
to the target and yields the not-found outcome whenever that element has
no enclosing row, even if a later row matches (see the counterexample). -/
theorem c4_classification_order (s : Soup) (target : String)
    (h : ∀ d ∈ s.timeDivs, d.parentRow.isSome = true) :
    classify s target = classifySpec s target := by
  unfold classify classifySpec validate_rzd_response monitorClassify findTimeDiv
  rw [← locate_cong s.timeDivs target h]
  by_cases herr : (s.errorContent.isSome || s.errorTitle.isSome) = true
  · rw [if_pos herr, if_pos herr]
  · rw [if_neg herr, if_neg herr]
    cases hf : s.timeDivs.find? (fun d => d.text == target) with
    | none => rfl
    | some d =>
      rcases d with ⟨txt, prow⟩
      cases prow with
      | none => rfl
      | some row =>
        cases hta : ticketAvailable row with
        | true => simp [hta]
        | false => simp [hta]

/-- Witness for C4: on the benign page the code's classification and the
claimed classification agree (both Available at 15:29). -/
theorem c4_classification_order_witness :
    (∀ d ∈ rowSoupC4.timeDivs, d.parentRow.isSome = true)
    ∧ classify rowSoupC4 "15:29" = classifySpec rowSoupC4 "15:29"
    ∧ classify rowSoupC4 "15:29" = .available :=
  ⟨by decide, c4_classification_order rowSoupC4 "15:29" (by decide), by decide⟩

/-! ## Claim C6 — the retrying fetcher -/

theorem retryLoop_le (att : Nat → Attempt) :
    ∀ (fuel i : Nat), (retryLoop att i fuel).2 ≤ i + fuel := by
  intro fuel
  induction fuel with
  | zero => intro i; simp [retryLoop]
  | succ f ih =>
    intro i
    cases hai : att i with
    | ok status => simp [retryLoop, hai]
    | otherErr => simp [retryLoop, hai]
    | netErr e =>
      by_cases hf : f = 0
      · subst hf
        simp [retryLoop, hai]
      · simp only [retryLoop, hai, hf, if_false]
        have := ih (i + 1)
        omega

theorem retryLoop_all_net (att : Nat → Attempt) :
    ∀ (fuel i : Nat), 0 < fuel →
    (∀ k, k < fuel → ∃ e, att (i + k) = .netErr e) →
    ∃ e, att (i + fuel - 1) = .netErr e
      ∧ retryLoop att i fuel = (.raisedNet e, i + fuel) := by
  intro fuel
  induction fuel with
  | zero =>
    intro i h
    exact absurd h (Nat.lt_irrefl 0)
  | succ f ih =>
    intro i hpos hall
    rcases hall 0 (Nat.succ_pos f) with ⟨e, he⟩
    rw [Nat.add_zero] at he
    by_cases hf : f = 0
    · subst hf
      refine ⟨e, ?_, ?_⟩
      · simpa using he
      · simp [retryLoop, he]
    · have hfpos : 0 < f := Nat.pos_of_ne_zero hf
      have hall' : ∀ k, k < f → ∃ e', att (i + 1 + k) = .netErr e' := by
        intro k hk
        rcases hall (k + 1) (by omega) with ⟨e', he'⟩
        refine ⟨e', ?_⟩
        rw [show i + 1 + k = i + (k + 1) by omega]
        exact he'
      rcases ih (i + 1) hfpos hall' with ⟨e', he', hr⟩
      refine ⟨e', ?_, ?_⟩
      · rw [show i + (f + 1) - 1 = i + 1 + f - 1 by omega]
        exact he'
      · rw [show retryLoop att i (f + 1) = retryLoop att (i + 1) f from by
          simp [retryLoop, he, hf]]
        rw [hr]
        rw [show i + 1 + f = i + (f + 1) by omega]

theorem retryLoop_first_ok (att : Nat → Attempt) :
    ∀ (j fuel i : Nat) (status : Nat), j < fuel →
    (∀ k, k < j → ∃ e, att (i + k) = .netErr e) →
    att (i + j) = .ok status →
    retryLoop att i fuel = (.resp status, i + j + 1) := by
  intro j
  induction j with
  | zero =>
    intro fuel i status hj hpre hok
    rw [Nat.add_zero] at hok
    cases fuel with
    | zero => omega
    | succ f => simp [retryLoop, hok]
  | succ jj ih =>
    intro fuel i status hj hpre hok
    rcases hpre 0 (Nat.succ_pos jj) with ⟨e, he⟩
    rw [Nat.add_zero] at he
    cases fuel with
    | zero => omega
    | succ f =>
      have hf : f ≠ 0 := by omega
      rw [show retryLoop att i (f + 1) = retryLoop att (i + 1) f from by
        simp [retryLoop, he, hf]]
      have hres := ih f (i + 1) status (by omega)
        (fun k hk => by
          rcases hpre (k + 1) (by omega) with ⟨e', he'⟩
          refine ⟨e', ?_⟩
          rw [show i + 1 + k = i + (k + 1) by omega]
          exact he')
        (by rw [show i + 1 + jj = i + (jj + 1) by omega]; exact hok)
      rw [hres]
      rw [show i + 1 + jj + 1 = i + (jj + 1) + 1 by omega]

theorem retryLoop_first_other (att : Nat → Attempt) :
    ∀ (j fuel i : Nat), j < fuel →
    (∀ k, k < j → ∃ e, att (i + k) = .netErr e) →
    att (i + j) = .otherErr →
    retryLoop att i fuel = (.raisedOther, i + j + 1) := by
  intro j
  induction j with
  | zero =>
    intro fuel i hj hpre hok
    rw [Nat.add_zero] at hok
    cases fuel with
    | zero => omega
    | succ f => simp [retryLoop, hok]
  | succ jj ih =>
    intro fuel i hj hpre hok
    rcases hpre 0 (Nat.succ_pos jj) with ⟨e, he⟩
    rw [Nat.add_zero] at he
    cases fuel with
    | zero => omega
    | succ f =>
      have hf : f ≠ 0 := by omega
      rw [show retryLoop att i (f + 1) = retryLoop att (i + 1) f from by
        simp [retryLoop, he, hf]]
      have hres := ih f (i + 1) (by omega)
        (fun k hk => by
          rcases hpre (k + 1) (by omega) with ⟨e', he'⟩
          refine ⟨e', ?_⟩
          rw [show i + 1 + k = i + (k + 1) by omega]
          exact he')
        (by rw [show i + 1 + jj = i + (jj + 1) by omega]; exact hok)
      rw [hres]
      rw [show i + 1 + jj + 1 = i + (jj + 1) + 1 by omega]

/-- C6: the decorated make_get_request (stop_after_attempt(8),
retry_if_exception_type((ClientError, TimeoutError)), reraise=True) makes
at most retry_attempts = 8 attempts in total; when all 8 attempts raise
network errors it re-raises the LAST failure cause after exactly 8
attempts; the first attempt that returns a response — whatever its status,
non-2xx included — ends the call at once with that response and is never
retried; and a non-network exception propagates immediately without
retrying. -/
theorem c6_make_get_request (att : Nat → Attempt) :
    (make_get_request att).2 ≤ retry_attempts
    ∧ ((∀ i, i < retry_attempts → ∃ e, att i = .netErr e) →
        ∃ e, att (retry_attempts - 1) = .netErr e
          ∧ make_get_request att = (.raisedNet e, retry_attempts))
    ∧ (∀ j status, j < retry_attempts →
        (∀ k, k < j → ∃ e, att k = .netErr e) →
        att j = .ok status → make_get_request att = (.resp status, j + 1))
    ∧ (∀ j, j < retry_attempts →
        (∀ k, k < j → ∃ e, att k = .netErr e) →
        att j = .otherErr → make_get_request att = (.raisedOther, j + 1)) := by
  refine ⟨?_, ?_, ?_, ?_⟩
  · have := retryLoop_le att retry_attempts 0
    simpa [make_get_request] using this
  · intro hall
    rcases retryLoop_all_net att retry_attempts 0 (by norm_num [retry_attempts])
      (fun k hk => by simpa using hall k hk) with ⟨e, he, hr⟩
    refine ⟨e, by simpa using he, ?_⟩
    simpa [make_get_request] using hr
  · intro j status hj hpre hok
    have := retryLoop_first_ok att j retry_attempts 0 status hj
      (fun k hk => by simpa using hpre k hk) (by simpa using hok)
    simpa [make_get_request] using this
  · intro j hj hpre hok
    have := retryLoop_first_other att j retry_attempts 0 hj
      (fun k hk => by simpa using hpre k hk) (by simpa using hok)
    simpa [make_get_request] using this

/-- An environment whose first two attempts fail with connection errors
and whose third returns a 503 response. -/
def attC6 : Nat → Attempt :=
  fun i => if i < 2 then .netErr .connection else .ok 503

/-- Witness for C6: two connection errors then a non-2xx response; the
call returns the 503 response after exactly 3 attempts (the non-2xx status
ends the retrying), within the budget of 8. -/
theorem c6_make_get_request_witness :
    make_get_request attC6 = (.resp 503, 3)
    ∧ (make_get_request attC6).2 ≤ retry_attempts :=
  ⟨(c6_make_get_request attC6).2.2.1 2 503 (by decide)
      (fun k hk => ⟨.connection, by simp [attC6, hk]⟩) (by decide),
   (c6_make_get_request attC6).1⟩

/-! ## Claim C8 — backoff and jitter -/

/-- C8 counterexample: the claim puts randomized plus-or-minus 25% jitter
on each inter-attempt delay.  The delay tenacity's wait_exponential
computes ignores the random draw entirely: the extreme draws 0 and 1 give
the same delay, and the delay after the first failed attempt is exactly
the undithered clamped value 1 (a 25% jitter band around any base never
collapses to one point).  The plus-or-minus 25% draw exists only in
calculate_retry_time, the polling interval of the monitoring loop. -/
theorem c8_counterexample :
    inter_attempt_delay 1 0 = inter_attempt_delay 1 1
    ∧ inter_attempt_delay 1 0 = 1
    ∧ inter_attempt_delay 2 0 = 2 := by
  refine ⟨rfl, ?_, ?_⟩ <;>
    norm_num [inter_attempt_delay, retry_wait, wait_exponential]

theorem one_le_two_pow_q (m : Nat) : (1 : ℚ) ≤ 2 ^ m := by
  induction m with
  | zero => norm_num
  | succ k ih =>
    rw [pow_succ]
    nlinarith

/-- C8 amended: the delay between consecutive fetch attempts is a
deterministic function of the attempt number — no randomness is consulted;
it starts at the base (1 second after the first failure), grows by the
multiplier 2 and is capped at 3 seconds; the plus-or-minus 25% jitter is
applied instead to the monitoring-loop polling interval
(calculate_retry_time), which ranges over exactly [0.75 base, 1.25 base]
as the uniform draw ranges over [0, 1]. -/
theorem c8_backoff_shape :
    (∀ (n : Nat) (u₁ u₂ : ℚ), inter_attempt_delay n u₁ = inter_attempt_delay n u₂)
    ∧ (∀ n : Nat, 1 ≤ retry_wait n ∧ retry_wait n ≤ 3)
    ∧ (∀ n : Nat, 1 ≤ n → retry_wait (n + 1) = min 3 (2 * retry_wait n))
    ∧ (∀ b u : ℚ, 0 ≤ b → 0 ≤ u → u ≤ 1 →
        b * (3 / 4) ≤ calculate_retry_time b u
          ∧ calculate_retry_time b u ≤ b * (5 / 4))
    ∧ (∀ b : ℚ, calculate_retry_time b 0 = b * (3 / 4)
        ∧ calculate_retry_time b 1 = b * (5 / 4)) := by
  refine ⟨fun n u₁ u₂ => rfl, ?_, ?_, ?_, ?_⟩
  · intro n
    unfold retry_wait wait_exponential
    constructor
    · exact le_trans (by norm_num : (1 : ℚ) ≤ max 0 1) (le_max_left _ _)
    · apply max_le
      · norm_num
      · exact min_le_right _ 3
  · intro n hn
    have h2p : (1 : ℚ) ≤ 2 ^ (n - 1) := one_le_two_pow_q _
    have h2pn : (1 : ℚ) ≤ 2 ^ n := one_le_two_pow_q _
    unfold retry_wait wait_exponential
    rw [show max (0 : ℚ) 1 = 1 by norm_num]
    rw [Nat.add_sub_cancel, one_mul, one_mul]
    rw [max_eq_right (le_min h2pn (by norm_num))]
    rw [max_eq_right (le_min h2p (by norm_num))]
    rw [mul_min_of_nonneg _ _ (by norm_num : (0 : ℚ) ≤ 2)]
    rw [show (2 : ℚ) * 2 ^ (n - 1) = 2 ^ n from by
      rw [← pow_succ']
      congr 1
      omega]
    rw [show (2 : ℚ) * 3 = 6 by norm_num]
    rw [min_left_comm]
    rw [show min (3 : ℚ) 6 = 3 by norm_num]
  · intro b u hb hu0 hu1
    unfold calculate_retry_time
    constructor <;> nlinarith
  · intro b
    constructor <;> (unfold calculate_retry_time; ring)

/-- Witness for C8: the capped-growth law at attempt 1 and the polling
jitter bounds at base 3 with the midpoint draw. -/
theorem c8_backoff_shape_witness :
    retry_wait 2 = min 3 (2 * retry_wait 1)
    ∧ (3 * (3 / 4) ≤ calculate_retry_time 3 (1 / 2)
        ∧ calculate_retry_time 3 (1 / 2) ≤ 3 * (5 / 4)) :=
  ⟨c8_backoff_shape.2.2.1 1 (by norm_num),
   c8_backoff_shape.2.2.2.1 3 (1 / 2) (by norm_num) (by norm_num) (by norm_num)⟩

/-! ## Claim C10 — the time-string validation -/

/-- C10 counterexample: the claim says a time exactly equal to the current
minute on the current date is accepted as not in the past.  At the current
Minsk time 12:30:45 on 2025-08-01 the input 12:30 for that same date is
REJECTED with the past-time branch: the comparison input_time <
current_time uses the full wall-clock time with seconds, and 12:30:00 <
12:30:45. -/
theorem c10_counterexample :
    validate_time_input "2025-08-01" "12:30" ⟨⟨2025, 8, 1⟩, ⟨12, 30, 45, 0⟩⟩
      = .pastError := by
  decide

theorem pdate_before_irrefl (d : PDate) : PDate.before d d = false := by
  simp [PDate.before]

theorem ptime_before_minute (h m s u : Nat) :
    PTime.before ⟨h, m, 0, 0⟩ ⟨h, m, s, u⟩
      = (decide (0 < s) || decide (0 < u)) := by
  by_cases hs : s = 0
  · subst hs
    simp [PTime.before]
  · have h0 : (0 : Nat) ≠ s := fun he => hs he.symm
    have hlt : 0 < s := Nat.pos_of_ne_zero hs
    simp [PTime.before, h0, hlt]

/-- C10 amended: any parseable time string whose raw length is not exactly
5 characters is rejected through the past-time branch (the one that sends
the past-time error message), even when it denotes a valid future time
such as one written with seconds; and a time equal to the current minute
on the current date is accepted if and only if the current wall clock has
zero seconds and zero microseconds — with nonzero seconds the equal-minute
input is rejected. -/
theorem c10_length_and_minute :
    (∀ (d t : String) (now : Now) (pt : PTime) (pd : PDate),
        time_fromisoformat t = some pt → strptime_date d = some pd →
        t.length ≠ 5 → validate_time_input d t now = .pastError)
    ∧ (∀ (d t : String) (now : Now),
        time_fromisoformat t = some ⟨now.time.hour, now.time.minute, 0, 0⟩ →
        strptime_date d = some now.date → t.length = 5 →
        (validate_time_input d t now = .ok
          ↔ now.time.second = 0 ∧ now.time.microsecond = 0)) := by
  constructor
  · intro d t now pt pd hpt hpd hlen
    unfold validate_time_input
    rw [hpt, hpd]
    simp [hlen]
  · intro d t now hpt hpd hlen
    unfold validate_time_input
    rw [hpt, hpd]
    rcases now with ⟨nd, ⟨nh, nm, ns, nu⟩⟩
    simp only [hlen, ne_eq, not_true_eq_false, pdate_before_irrefl,
      beq_self_eq_true, Bool.true_and, Bool.false_or, decide_eq_false_iff_not,
      decide_eq_true_eq]
    rw [ptime_before_minute nh nm ns nu]
    by_cases hs : ns = 0
    · subst hs
      by_cases hu : nu = 0
      · subst hu
        simp
      · have hpos : 0 < nu := Nat.pos_of_ne_zero hu
        simp [hpos, hu]
    · have hpos : 0 < ns := Nat.pos_of_ne_zero hs
      simp [hpos, hs]

/-- Witness for C10: the future time written with seconds (length 8) is
rejected with the past-time branch; the equal-minute input at a clock with
zero seconds is accepted. -/
theorem c10_length_and_minute_witness :
    validate_time_input "2025-08-01" "07:44:30" ⟨⟨2025, 8, 1⟩, ⟨0, 0, 0, 0⟩⟩
      = .pastError
    ∧ (validate_time_input "2025-08-02" "12:30" ⟨⟨2025, 8, 2⟩, ⟨12, 30, 0, 0⟩⟩
        = .ok ↔ ((0 : Nat) = 0 ∧ (0 : Nat) = 0)) :=
  ⟨c10_length_and_minute.1 "2025-08-01" "07:44:30" ⟨⟨2025, 8, 1⟩, ⟨0, 0, 0, 0⟩⟩
      ⟨7, 44, 30, 0⟩ ⟨2025, 8, 1⟩ (by decide) (by decide) (by decide),
   c10_length_and_minute.2 "2025-08-02" "12:30" ⟨⟨2025, 8, 2⟩, ⟨12, 30, 0, 0⟩⟩
      (by decide) (by decide) (by decide)⟩

/-! ## Claim C3 — the per-user concurrency limit -/

theorem find_tid_append_self (l : List TaskRec) (nt : TaskRec)
    (h : ∀ t ∈ l, t.tid ≠ nt.tid) :
    (l ++ [nt]).find? (fun t => t.tid == nt.tid) = some nt := by
  induction l with
  | nil => simp [List.find?]
  | cons a rest ih =>
    have hne : (a.tid == nt.tid) = false := by
      simp [h a (List.mem_cons_self a rest)]
    simp only [List.cons_append, List.find?, hne]
    exact ih (fun t ht => h t (List.mem_cons_of_mem a ht))

theorem findTask_createMid_self (v : Bool) (s : UState) (hW : WF s) :
    findTask (createMid v s) s.nextId = some ⟨s.nextId, .running, v, false, 0⟩ := by
  unfold findTask createMid
  refine find_tid_append_self s.tasks ⟨s.nextId, .running, v, false, 0⟩ ?_
  intro t ht
  show t.tid ≠ s.nextId
  have := hW.taskIdsLt t ht
  omega

/-- C3: in every reachable registry state the user holds at most
max_concurrent_searches = 3 live search handles (the slot keys
search_task_1..3 are the handles); and a submission made while all three
are live returns False (the limit message), leaves the slot map and the
live-handle count unchanged, but first STARTS the task and appends it to
task_manager.active_tasks — the rejected task is cancelled before its body
runs (ran = false, fetches = 0) yet stays in the manager list forever, so
the registry state for that user is NOT unchanged, contrary to the claim's
parenthetical. -/
theorem c3_slot_limit (s : UState) (hR : Reachable s) :
    slotLiveCount s ≤ max_concurrent_searches
    ∧ (slotLiveCount s = max_concurrent_searches → ∀ v : Bool,
        (create_search_task v s).2 = false
        ∧ (create_search_task v s).1.slots = s.slots
        ∧ slotLiveCount (create_search_task v s).1 = slotLiveCount s
        ∧ (create_search_task v s).1.manager = s.manager ++ [s.nextId]
        ∧ findTask (create_search_task v s).1 s.nextId
            = some ⟨s.nextId, .cancelled, v, false, 0⟩) := by
  have hW := reachable_wf s hR
  constructor
  · calc slotLiveCount s ≤ s.slots.length := s.slots.length_filter_le _
      _ = max_concurrent_searches := hW.slotsLen
  · intro hfull v
    have hall : ∀ o ∈ s.slots, (! slotFree s o) = true := by
      apply filter_all_of_length
      rw [show (s.slots.filter (fun o => ! slotFree s o)).length
          = slotLiveCount s from rfl, hfull, hW.slotsLen]
    have hfree_all : ∀ o ∈ s.slots, slotFree s o = false := by
      intro o ho
      have h1 := hall o ho
      cases hsf : slotFree s o with
      | false => rfl
      | true => rw [hsf] at h1; cases h1
    have hfree_mid : ∀ o ∈ s.slots, slotFree (createMid v s) o = false := by
      intro o ho
      rw [slotFree_slots_createMid v s hW o ho]
      exact hfree_all o ho
    have hassign : assignFirstFree (createMid v s) s.nextId s.slots = none :=
      (assignFirstFree_eq_none _ _ _).mpr hfree_mid
    have hcreate : create_search_task v s
        = (setStatus (createMid v s) s.nextId .cancelled, false) := by
      rw [create_search_task_eq, hassign]
    rw [hcreate]
    refine ⟨rfl, rfl, ?_, rfl, ?_⟩
    · unfold slotLiveCount
      apply congrArg List.length
      apply List.filter_congr
      intro o ho
      have h1 : o ≠ some s.nextId := by
        intro he
        have := hW.slotIdsLt s.nextId (he ▸ ho)
        omega
      show (! slotFree (setStatus (createMid v s) s.nextId .cancelled) o)
          = ! slotFree s o
      rw [slotFree_setStatus_ne (createMid v s) s.nextId .cancelled o h1]
      rw [slotFree_slots_createMid v s hW o ho]
    · show findTask (setStatus (createMid v s) s.nextId .cancelled) s.nextId
          = some ⟨s.nextId, .cancelled, v, false, 0⟩
      rw [show setStatus (createMid v s) s.nextId .cancelled
          = updateTask (createMid v s) s.nextId
              (fun t => { t with status := .cancelled }) from rfl]
      rw [findTask_updateTask (createMid v s) s.nextId
          (fun t => { t with status := .cancelled }) (fun _ => rfl) s.nextId]
      rw [findTask_createMid_self v s hW]
      simp

/-- Witness for C3: the state after three admitted submissions has three
live handles; a fourth submission is rejected yet grows the manager list. -/
theorem c3_slot_limit_witness :
    slotLiveCount
        (create_search_task true
          (create_search_task true (create_search_task true initState).1).1).1
      = max_concurrent_searches
    ∧ (create_search_task true
        (create_search_task true
          (create_search_task true (create_search_task true initState).1).1).1).2
      = false :=
  ⟨by decide,
   ((c3_slot_limit
      (create_search_task true
        (create_search_task true (create_search_task true initState).1).1).1
      (Reachable.create true (Reachable.create true
        (Reachable.create true Reachable.init)))).2 (by decide) true).1⟩

/-- C3 counterexample: the claim says a rejected submission consumes no
resource — the registry state for the user is unchanged.  Submitting a
fourth search while three are live returns the rejection, but
task_manager.active_tasks for the user has grown by the fresh (cancelled)
task: add_task runs before the limit check and nothing ever removes the
entry. -/
theorem c3_counterexample :
    (create_search_task true
        (create_search_task true
          (create_search_task true (create_search_task true initState).1).1).1).2
      = false
    ∧ (create_search_task true
        (create_search_task true
          (create_search_task true (create_search_task true initState).1).1).1).1.manager
      = [0, 1, 2, 3]
    ∧ (create_search_task true
        (create_search_task true (create_search_task true initState).1).1).1.manager
      = [0, 1, 2] := by
  refine ⟨?_, ?_, ?_⟩ <;> decide

/-! ## Claim C5 — the cancel handler -/

/-- C5: in every reachable registry state, the cancel handler reports
exactly the number of live handles (slots holding a not-done task):
already-finished handles are popped without being counted; afterwards the
user has zero live handles, and in fact no task of the user is left
running at all. -/
theorem c5_cancel_count (s : UState) (hR : Reachable s) :
    (cancel s).2 = slotLiveCount s
    ∧ slotLiveCount (cancel s).1 = 0
    ∧ ∀ t ∈ (cancel s).1.tasks, t.status ≠ .running := by
  have hW := reachable_wf s hR
  cases hall : s.slots.all Option.isNone with
  | true =>
    rw [cancel_eq_empty hall]
    have hzero : slotLiveCount s = 0 := by
      unfold slotLiveCount
      rw [List.length_eq_zero, List.filter_eq_nil_iff]
      intro o ho
      have hno := (List.all_eq_true.mp hall) o ho
      cases o with
      | none => simp [slotFree]
      | some tid => cases hno
    refine ⟨hzero.symm, hzero, ?_⟩
    intro t ht hst
    have hmem := hW.runningSlotted t ht hst
    have h2 := (List.all_eq_true.mp hall) _ hmem
    cases h2
  | false =>
    rw [cancel_eq hall]
    refine ⟨?_, ?_, ?_⟩
    · exact cancelSlots_count s.slots s hW.slotIdsNodup
    · show ((s.slots.map (fun _ => none)).filter
          (fun o => ! slotFree ({ (cancelSlots s s.slots).1 with
            slots := s.slots.map (fun _ => none) }) o)).length = 0
      rw [List.length_eq_zero, List.filter_eq_nil_iff]
      intro o ho
      rcases List.mem_map.mp ho with ⟨o', _, he⟩
      rw [← he]
      simp [slotFree]
    · intro t ht hst
      exact (cancelSlots_no_running s.slots s hW.slotIdsNodup hW.taskIdsNodup
        hW.runningSlotted t ht) hst

/-- Witness for C5: after three admitted submissions one worker finishes
on its own; the remaining live count is 2, cancel reports exactly 2, and
afterwards zero handles are live. -/
theorem c5_cancel_count_witness :
    slotLiveCount
        (workerFinish (workerBegin
          (create_search_task true
            (create_search_task true (create_search_task true initState).1).1).1 0) 0)
      = 2
    ∧ (cancel (workerFinish (workerBegin
          (create_search_task true
            (create_search_task true (create_search_task true initState).1).1).1 0) 0)).2
      = 2
    ∧ slotLiveCount
        (cancel (workerFinish (workerBegin
          (create_search_task true
            (create_search_task true (create_search_task true initState).1).1).1 0) 0)).1
      = 0 :=
  ⟨by decide,
   ((c5_cancel_count _
      (Reachable.wfinish 0 ⟨0, .running, true, true, 0⟩
        (Reachable.wbegin 0 ⟨0, .running, true, false, 0⟩
          (Reachable.create true (Reachable.create true
            (Reachable.create true Reachable.init)))
          (by decide) rfl rfl rfl)
        (by decide) rfl rfl)).1).trans (by decide),
   ((c5_cancel_count _
      (Reachable.wfinish 0 ⟨0, .running, true, true, 0⟩
        (Reachable.wbegin 0 ⟨0, .running, true, false, 0⟩
          (Reachable.create true (Reachable.create true
            (Reachable.create true Reachable.init)))
          (by decide) rfl rfl rfl)
        (by decide) rfl rfl)).2).1⟩

/-! ## Claim C7 — past date/time requests -/

/-- C7 counterexample: the claim says no search handle is ever admitted for
a past-dated request and the slot count is unchanged.  In the code the
handle is admitted BEFORE validation runs: create_search_task spawns the
task and fills slot 1 for a request that will fail time validation
(valid = false), returning True, and the live count rises from 0 to 1
until the worker body runs validation and exits. -/
theorem c7_counterexample :
    (create_search_task false initState).2 = true
    ∧ slotLiveCount (create_search_task false initState).1 = 1
    ∧ slotLiveCount initState = 0 := by
  refine ⟨?_, ?_, ?_⟩ <;> decide

theorem filter_middle_length {α : Type} (p : α → Bool) (l₁ l₂ : List α) (a : α) :
    ((l₁ ++ a :: l₂).filter p).length
      = (l₁.filter p).length + (l₂.filter p).length
        + (if p a = true then 1 else 0) := by
  cases hpa : p a with
  | true =>
    simp [List.filter_append, List.filter_cons, hpa, List.length_append]
    omega
  | false =>
    simp [List.filter_append, List.filter_cons, hpa, List.length_append]

/-- C7: a request whose date/time validation fails with the past-time
branch makes the worker send the past-time message and return having
performed zero fetches; in every reachable state a task created for an
invalid request never fetches; but admission precedes validation: the
submission is admitted (whenever a slot is free), the live count rises by
one, and only when the admitted worker runs validation and exits does the
live count return to its previous value (the slot then holds a done
task). -/
theorem c7_past_time :
    (∀ (d t : String) (now : Now) (target : String) (events : List MEvent),
        validate_time_input d t now = .pastError →
        start_ticket_checking (validate_time_input d t now) target events
          = ⟨[.pastTime], true, 0⟩)
    ∧ (∀ s : UState, Reachable s → ∀ t ∈ s.tasks, t.valid = false → t.fetches = 0)
    ∧ (∀ s : UState, Reachable s →
        (create_search_task false s).2 = true →
        slotLiveCount (create_search_task false s).1 = slotLiveCount s + 1
        ∧ slotLiveCount
            (workerValidateFail (create_search_task false s).1 s.nextId)
          = slotLiveCount s) := by
  refine ⟨?_, ?_, ?_⟩
  · intro d t now target events h
    rw [h]
    rfl
  · intro s hR
    exact (reachable_wf s hR).invalidNoFetch
  · intro s hR hadm
    have hW := reachable_wf s hR
    cases hassign : assignFirstFree (createMid false s) s.nextId s.slots with
    | none =>
      exfalso
      rw [create_search_task_eq, hassign] at hadm
      simp at hadm
    | some slots1 =>
      have hcr : create_search_task false s
          = ({ createMid false s with slots := slots1 }, true) := by
        rw [create_search_task_eq, hassign]
      rcases assignFirstFree_eq_some _ _ _ _ hassign with
        ⟨l₁, o, l₂, he, he', hfree, hall⟩
      rw [hcr]
      have hmem1 : ∀ o' ∈ l₁, o' ∈ s.slots := by
        intro o' ho'
        rw [he]
        exact List.mem_append_left _ ho'
      have hmem2 : ∀ o' ∈ l₂, o' ∈ s.slots := by
        intro o' ho'
        rw [he]
        exact List.mem_append_right _ (List.mem_cons_of_mem _ ho')
      have hmemo : o ∈ s.slots := by
        rw [he]
        exact List.mem_append_right _ (List.mem_cons_self _ _)
      have hfree_s : slotFree s o = true := by
        rw [← slotFree_slots_createMid false s hW o hmemo]
        exact hfree
      have hfreeN : slotFree (createMid false s) (some s.nextId) = false := by
        simp [slotFree, taskRunning, findTask_createMid_self false s hW]
      have hslc : slotLiveCount s
          = (l₁.filter (fun o2 => ! slotFree s o2)).length
            + (l₂.filter (fun o2 => ! slotFree s o2)).length := by
        unfold slotLiveCount
        rw [he, filter_middle_length]
        rw [show (! slotFree s o) = false from by rw [hfree_s]; rfl]
        simp
      constructor
      · show ((slots1.filter
            (fun o2 => ! slotFree (createMid false s) o2)).length)
            = slotLiveCount s + 1
        rw [he', filter_middle_length]
        have ht1 : l₁.filter (fun o2 => ! slotFree (createMid false s) o2)
            = l₁.filter (fun o2 => ! slotFree s o2) :=
          List.filter_congr (fun o2 ho2 => by
            rw [slotFree_slots_createMid false s hW o2 (hmem1 o2 ho2)])
        have ht2 : l₂.filter (fun o2 => ! slotFree (createMid false s) o2)
            = l₂.filter (fun o2 => ! slotFree s o2) :=
          List.filter_congr (fun o2 ho2 => by
            rw [slotFree_slots_createMid false s hW o2 (hmem2 o2 ho2)])
        rw [ht1, ht2, hslc]
        rw [show (! slotFree (createMid false s) (some s.nextId)) = true from by
          rw [hfreeN]; rfl]
        simp
      · have hfV : findTask
            (workerValidateFail (createMid false s) s.nextId) s.nextId
            = some ⟨s.nextId, .finished, false, true, 0⟩ := by
          show findTask (updateTask (createMid false s)
              s.nextId (fun t => { t with ran := true, status := .finished }))
              s.nextId = _
          rw [findTask_updateTask (createMid false s)
            s.nextId (fun t => { t with ran := true, status := .finished })
            (fun _ => rfl) s.nextId]
          rw [findTask_createMid_self false s hW]
          simp
        have hfreeNV : slotFree
            (workerValidateFail (createMid false s) s.nextId)
            (some s.nextId) = true := by
          simp [slotFree, taskRunning, hfV]
        have htransV : ∀ o2 ∈ s.slots,
            slotFree (workerValidateFail (createMid false s) s.nextId) o2
              = slotFree s o2 := by
          intro o2 ho2
          have hne : o2 ≠ some s.nextId := by
            intro heq
            have := hW.slotIdsLt s.nextId (heq ▸ ho2)
            omega
          rw [show workerValidateFail (createMid false s) s.nextId
              = updateTask (createMid false s) s.nextId
                  (fun t => { t with ran := true, status := .finished })
            from rfl]
          rw [slotFree_updateTask_ne (createMid false s) s.nextId
            (fun t => { t with ran := true, status := .finished })
            (fun _ => rfl) o2 hne]
          exact slotFree_slots_createMid false s hW o2 ho2
        show ((slots1.filter (fun o2 => ! slotFree
            (workerValidateFail (createMid false s) s.nextId) o2)).length)
            = slotLiveCount s
        rw [he', filter_middle_length]
        have ht1 : l₁.filter (fun o2 => ! slotFree
            (workerValidateFail (createMid false s) s.nextId) o2)
            = l₁.filter (fun o2 => ! slotFree s o2) :=
          List.filter_congr (fun o2 ho2 => by rw [htransV o2 (hmem1 o2 ho2)])
        have ht2 : l₂.filter (fun o2 => ! slotFree
            (workerValidateFail (createMid false s) s.nextId) o2)
            = l₂.filter (fun o2 => ! slotFree s o2) :=
          List.filter_congr (fun o2 ho2 => by rw [htransV o2 (hmem2 o2 ho2)])
        rw [ht1, ht2, hslc]
        rw [show (! slotFree (workerValidateFail (createMid false s) s.nextId)
            (some s.nextId)) = false from by rw [hfreeNV]; rfl]
        simp

/-- Witness for C7: a past-time input on the current date; the worker trace
reports the past-time message with zero fetches, and in the empty registry
the admitted-then-terminated invalid request leaves the live count at 0. -/
theorem c7_past_time_witness :
    validate_time_input "2025-08-01" "07:00"
        ⟨⟨2025, 8, 1⟩, ⟨8, 0, 0, 0⟩⟩ = .pastError
    ∧ start_ticket_checking
        (validate_time_input "2025-08-01" "07:00" ⟨⟨2025, 8, 1⟩, ⟨8, 0, 0, 0⟩⟩)
        "07:00" [] = ⟨[.pastTime], true, 0⟩
    ∧ slotLiveCount (workerValidateFail (create_search_task false initState).1
        initState.nextId) = slotLiveCount initState :=
  ⟨by decide,
   c7_past_time.1 "2025-08-01" "07:00" ⟨⟨2025, 8, 1⟩, ⟨8, 0, 0, 0⟩⟩ "07:00" []
     (by decide),
   (c7_past_time.2.2 initState Reachable.init (by decide)).2⟩

/-! ## Claim C9 — shutdown -/

theorem cancel_all_tasks_no_running (s : UState) (hW : WF s) :
    ∀ t ∈ (cancel_all_tasks s).tasks, t.status ≠ .running := by
  intro t ht hst
  rcases List.mem_map.mp ht with ⟨u, hu, he⟩
  by_cases h : (s.manager.contains u.tid && u.status == TStatus.running) = true
  · rw [← he, if_pos h] at hst
    exact TStatus.noConfusion hst
  · have htu : t = u := by rw [← he, if_neg h]
    rw [htu] at hst
    apply h
    rw [Bool.and_eq_true]
    refine ⟨contains_of_mem s.manager u.tid (hW.inManager u hu), ?_⟩
    simp [hst]

/-- The state after one admitted submission: one live handle. -/
def oneLiveState : UState := (create_search_task true initState).1

/-- C9 counterexample: the claim says the shutdown operation notifies each
user with a live handle and then cancels every live handle.
TicketBot.shutdown (the post_stop hook) only logs: in a state with one
live handle it sends no message and leaves the handle live, where the
claim requires at least one notification and zero live handles
afterwards. -/
theorem c9_counterexample :
    shutdown oneLiveState [] = (oneLiveState, [])
    ∧ slotLiveCount oneLiveState = 1
    ∧ get_active_users oneLiveState = true :=
  ⟨rfl, by decide, by decide⟩

/-- C9 amended: the shutdown hook is a no-op apart from its log line — it
cancels no task and sends no notification; TaskManager.cancel_all_tasks,
which shutdown never invokes, would indeed cancel every live task of
every user, leaving no task running and no active user. -/
theorem c9_shutdown_noop (s : UState) (sent : List Msg) (hR : Reachable s) :
    shutdown s sent = (s, sent)
    ∧ (∀ t ∈ (cancel_all_tasks s).tasks, t.status ≠ .running)
    ∧ get_active_users (cancel_all_tasks s) = false := by
  have hW := reachable_wf s hR
  refine ⟨rfl, cancel_all_tasks_no_running s hW, ?_⟩
  cases hg : get_active_users (cancel_all_tasks s) with
  | false => rfl
  | true =>
    exfalso
    unfold get_active_users at hg
    rcases List.any_eq_true.mp hg with ⟨tid, hmem, hrun⟩
    unfold taskRunning at hrun
    cases hf : findTask (cancel_all_tasks s) tid with
    | none => rw [hf] at hrun; cases hrun
    | some t =>
      rw [hf] at hrun
      have ht : t ∈ (cancel_all_tasks s).tasks := by
        have := List.mem_of_find?_eq_some hf
        exact this
      have : t.status = .running := by simpa using hrun
      exact cancel_all_tasks_no_running s hW t ht this

/-- Witness for C9: in the one-live-handle state the shutdown hook changes
nothing and sends nothing, while cancel_all_tasks would deactivate the
user. -/
theorem c9_shutdown_noop_witness :
    shutdown oneLiveState [] = (oneLiveState, [])
    ∧ get_active_users (cancel_all_tasks oneLiveState) = false :=
  ⟨(c9_shutdown_noop oneLiveState [] (Reachable.create true Reachable.init)).1,
   (c9_shutdown_noop oneLiveState [] (Reachable.create true Reachable.init)).2.2⟩
